import Mathlib

/-!
# Electronic Caddy: flash sequencer and record store (`Caddy/flash.c`)

A shallow embedding of `flash.c`.  The C code drives the flash controller of the
microcontroller through memory-mapped registers; the registers and the flash array are
an explicit `Device` state here, every register or flash store of the C code is one
`hw_*` step on that state, and every C function is a Lean function of the same name.

Machine integers are natural numbers, reduced modulo `2 ^ w` where the C type truncates.

The controller is modelled as the specification describes it:
* a page erase turns every cell of the page selected by the page-index field and the
  bank-select bit of the control register into all-ones;
* a double word is programmed only when it is erased, otherwise the store is dropped and
  the programming-error flag is raised;
* the control register ignores stores while `LOCK` is set, and the key sequence clears
  `LOCK`;
* the flags of the status register are cleared by writing one to them;
* an operation keeps `BSY` up for finitely many polls; when it ends the start bit drops
  and, with the end-of-operation interrupt enabled, `EOP` rises.

Of the control register only the program-mode and erase-mode bits, the page-index field,
the bank-select bit, the start bit, the end-of-operation interrupt enable and `LOCK` have
an effect in the model; mass erase, fast programming and the option-byte operations are
left out.
-/

namespace Caddy

/-! ## Constants -/

/-- Base address of the clubs record, `#define CLUB_ADDRESS 0x080FF800`. -/
def CLUB_ADDRESS : Nat := 0x080FF800
/-- Base address of the settings record, `#define SETTINGS_ADDRESS 0x08080000`. -/
def SETTINGS_ADDRESS : Nat := 0x08080000
/-- Base address of the position record, `#define POSITION_ADDRESS 0x08080800`. -/
def POSITION_ADDRESS : Nat := 0x08080800

/-- Modelled from the spec: the register bit masks come from the device header that
`flash.h` pulls in, which is not among the sources; the values are those of the
dual-bank part the addresses above belong to (`page << 3` in `flash_erase_page` fixes
the page-index field at bits 3..10).  This one is the end-of-operation flag of the
status register. -/
def FLASH_SR_EOP : Nat := 1 <<< 0
/-- Modelled from the spec: status register, programming error (the target cell was not
erased); from the missing device header. -/
def FLASH_SR_PROGERR : Nat := 1 <<< 3
/-- Modelled from the spec: status register, write-protection error; from the missing
device header. -/
def FLASH_SR_WRPERR : Nat := 1 <<< 4
/-- Modelled from the spec: status register, programming alignment error; from the
missing device header. -/
def FLASH_SR_PGAERR : Nat := 1 <<< 5
/-- Modelled from the spec: status register, size error; from the missing device
header. -/
def FLASH_SR_SIZERR : Nat := 1 <<< 6
/-- Modelled from the spec: status register, programming sequence error; from the
missing device header. -/
def FLASH_SR_PGSERR : Nat := 1 <<< 7
/-- Modelled from the spec: status register, busy flag; from the missing device
header. -/
def FLASH_SR_BSY : Nat := 1 <<< 16
/-- Modelled from the spec: control register, program-mode bit; from the missing device
header. -/
def FLASH_CR_PG : Nat := 1 <<< 0
/-- Modelled from the spec: control register, erase-mode bit; from the missing device
header. -/
def FLASH_CR_PER : Nat := 1 <<< 1
/-- Modelled from the spec: control register, bank-select bit of a page erase (set:
bank 2); from the missing device header. -/
def FLASH_CR_BKER : Nat := 1 <<< 11
/-- Modelled from the spec: control register, start bit; from the missing device
header. -/
def FLASH_CR_STRT : Nat := 1 <<< 16
/-- Modelled from the spec: control register, end-of-operation interrupt enable; from
the missing device header. -/
def FLASH_CR_EOPIE : Nat := 1 <<< 24
/-- Modelled from the spec: control register, option-byte lock; from the missing device
header. -/
def FLASH_CR_OPTLOCK : Nat := 1 <<< 30
/-- Modelled from the spec: control register, lock bit; from the missing device
header. -/
def FLASH_CR_LOCK : Nat := 1 <<< 31

/-- Modelled from the spec: the flags of the status register that are cleared by writing
one to them (bits 0, 1, 3..9, 14, 15); `BSY` is read-only. -/
def FLASH_SR_W1C : Nat := 0xC3FB

/-- The 32-bit complement, `~x` on a `uint32_t`. -/
def not32 (x : Nat) : Nat := 0xFFFFFFFF ^^^ x

/-! ## The device -/

/-- A store the processor issues to the controller or to the flash array. -/
inductive BusWrite where
  | keyr (v : Nat)
  | cr (v : Nat)
  | sr (v : Nat)
  | mmio32 (addr v : Nat)

/-- The flash array and the controller.
* `mem a` is the 32-bit word at byte address `a`;
* `CR`, `SR` are the control and status registers;
* `key1` tells that the first unlock key has been received;
* `wopen` is the double word whose low half has just been programmed;
* `pending` counts the polls of `SR` until the running operation completes, and an
  operation that starts takes `delay` of them;
* `log` lists the stores issued so far, oldest first. -/
structure Device where
  mem : Nat → Nat
  CR : Nat
  SR : Nat
  key1 : Bool
  wopen : Option Nat
  pending : Nat
  delay : Nat
  log : List BusWrite

/-- A 64-bit little-endian load: the word at `a` is the low half. -/
def load64 (mem : Nat → Nat) (a : Nat) : Nat :=
  mem a % 2 ^ 32 + 2 ^ 32 * (mem (a + 4) % 2 ^ 32)

/-- Hardware model: first byte address of a page; bank 1 starts at `0x08000000`, bank 2 at
`0x08080000`, pages are 2 KiB. -/
def pageBase (bank2 : Bool) (pnb : Nat) : Nat :=
  0x08000000 + (if bank2 then 0x80000 else 0) + pnb * 0x800

/-- Hardware model: whether byte address `x` lies in the page. -/
def inPage (bank2 : Bool) (pnb : Nat) (x : Nat) : Bool :=
  decide (pageBase bank2 pnb ≤ x) && decide (x < pageBase bank2 pnb + 0x800)

/-- Hardware model of a page erase: every cell of the page becomes all-ones. -/
def hw_erase (mem : Nat → Nat) (bank2 : Bool) (pnb : Nat) : Nat → Nat :=
  fun x => if inPage bank2 pnb x then 0xFFFFFFFF else mem x

/-- The page-index field of a control-register value (bits 3..10). -/
def pnbField (cr : Nat) : Nat := (cr >>> 3) % 256

/-- Hardware model of a store to `FLASH->KEYR`: the two keys in order clear `LOCK`. -/
def hw_writeKEYR (s : Device) (v : Nat) : Device :=
  let s := { s with log := s.log ++ [BusWrite.keyr v] }
  if v = 0x45670123 then { s with key1 := true }
  else if v = 0xCDEF89AB ∧ s.key1 = true then
    { s with CR := s.CR &&& not32 FLASH_CR_LOCK, key1 := false }
  else { s with key1 := false }

/-- Hardware model of a store to `FLASH->CR`. It is ignored while the controller is
locked. A value with the start bit and the page-erase bit erases the page that the value
selects with its page-index field and its bank-select bit, and the controller becomes
busy. -/
def hw_writeCR (s : Device) (v : Nat) : Device :=
  let s := { s with log := s.log ++ [BusWrite.cr v] }
  if s.CR.testBit 31 then s
  else
    let v := v % 2 ^ 32
    if v.testBit 16 && v.testBit 1 then
      { s with CR := v, mem := hw_erase s.mem (v.testBit 11) (pnbField v),
               SR := s.SR ||| FLASH_SR_BSY, pending := s.delay }
    else { s with CR := v }

/-- Hardware model of a store to `FLASH->SR`: a one written to a flag clears it, zeros
change nothing. -/
def hw_writeSR (s : Device) (v : Nat) : Device :=
  { s with SR := s.SR &&& not32 (v &&& FLASH_SR_W1C), log := s.log ++ [BusWrite.sr v] }

/-- Hardware model of a 32-bit store into the flash array. Outside program mode it is
ignored. The store to the low half of a double word programs it when the whole double word
is erased, and flags a programming error otherwise; the store to the high half completes a
double word opened that way and starts the operation. -/
def hw_store32 (s : Device) (a v : Nat) : Device :=
  let s := { s with log := s.log ++ [BusWrite.mmio32 a v] }
  if s.CR.testBit 31 || !s.CR.testBit 0 then s
  else if a % 8 = 0 then
    if load64 s.mem a = 0xFFFFFFFFFFFFFFFF then
      { s with mem := fun x => if x = a then v % 2 ^ 32 else s.mem x, wopen := some a }
    else { s with SR := s.SR ||| FLASH_SR_PROGERR, wopen := none }
  else if s.wopen = some (a - 4) ∧ 4 ≤ a then
    { s with mem := fun x => if x = a then v % 2 ^ 32 else s.mem x, wopen := none,
             SR := s.SR ||| FLASH_SR_BSY, pending := s.delay }
  else { s with SR := s.SR ||| FLASH_SR_PROGERR, wopen := none }

/-- Hardware model of time passing, one poll of `SR` later: the running operation gets one
step closer to its end; at the end `BSY` and the start bit drop, and `EOP` rises when its
interrupt is enabled. -/
def hw_tick (s : Device) : Device :=
  match s.pending with
  | 0 => { s with SR := (s.SR &&& not32 FLASH_SR_BSY)
                          ||| (if s.CR.testBit 24 then FLASH_SR_EOP else 0),
                  CR := s.CR &&& not32 FLASH_CR_STRT }
  | n + 1 => { s with pending := n }

/-- Hardware model of a 64-bit load from the flash array; it changes nothing. -/
def hw_load64 (s : Device) (a : Nat) : Device × Nat := (s, load64 s.mem a)

/-! ## Flash sequencer -/

/-- The loop `while ((FLASH->SR & FLASH_SR_BSY) == FLASH_SR_BSY);` for at most `n`
polls. -/
def flash_wait_loop : Nat → Device → Device
  | 0, s => s
  | n + 1, s =>
    if s.SR &&& FLASH_SR_BSY = FLASH_SR_BSY then flash_wait_loop n (hw_tick s) else s

/-- Source function `flash_wait_for_last_operation`: the running operation ends after
`pending` more polls, so `pending + 1` polls leave the loop. -/
def flash_wait_for_last_operation (s : Device) : Device :=
  flash_wait_loop (s.pending + 1) s

/-- Source function `flash_clear_pgserr_flag`: `FLASH->SR |= FLASH_SR_PGSERR;` -/
def flash_clear_pgserr_flag (s : Device) : Device := hw_writeSR s (s.SR ||| FLASH_SR_PGSERR)
/-- Source function `flash_clear_size_flag`: `FLASH->SR |= FLASH_SR_SIZERR;` -/
def flash_clear_size_flag (s : Device) : Device := hw_writeSR s (s.SR ||| FLASH_SR_SIZERR)
/-- Source function `flash_clear_pgaerr_flag`: `FLASH->SR |= FLASH_SR_PGAERR;` -/
def flash_clear_pgaerr_flag (s : Device) : Device := hw_writeSR s (s.SR ||| FLASH_SR_PGAERR)
/-- Source function `flash_clear_wrperr_flag`: `FLASH->SR |= FLASH_SR_WRPERR;` -/
def flash_clear_wrperr_flag (s : Device) : Device := hw_writeSR s (s.SR ||| FLASH_SR_WRPERR)
/-- Source function `flash_clear_progerr_flag`: `FLASH->SR |= FLASH_SR_PROGERR;` -/
def flash_clear_progerr_flag (s : Device) : Device := hw_writeSR s (s.SR ||| FLASH_SR_PROGERR)
/-- Source function `flash_clear_eop_flag`: `FLASH->SR |= FLASH_SR_EOP;` -/
def flash_clear_eop_flag (s : Device) : Device := hw_writeSR s (s.SR ||| FLASH_SR_EOP)

/-- Source function `flash_clear_status_flags`: the six clears in the order of the source.
-/
def flash_clear_status_flags (s : Device) : Device :=
  let s := flash_clear_pgserr_flag s
  let s := flash_clear_size_flag s
  let s := flash_clear_pgaerr_flag s
  let s := flash_clear_wrperr_flag s
  let s := flash_clear_progerr_flag s
  flash_clear_eop_flag s

/-- Source function `flash_lock_option_bytes`: `FLASH->CR |= FLASH_CR_OPTLOCK;` -/
def flash_lock_option_bytes (s : Device) : Device := hw_writeCR s (s.CR ||| FLASH_CR_OPTLOCK)

/-- Source function `unlock_flash`: the two key stores. -/
def unlock_flash (s : Device) : Device :=
  let s := hw_writeKEYR s 0x45670123
  hw_writeKEYR s 0xCDEF89AB

/-- Source function `lock_flash`: `FLASH->CR |= FLASH_CR_LOCK;` -/
def lock_flash (s : Device) : Device := hw_writeCR s (s.CR ||| FLASH_CR_LOCK)

/-- The loop `while((FLASH->SR & FLASH_SR_EOP) == FLASH_SR_EOP);` of
`flash_program_double_word`.  Its body is empty and the controller never clears `EOP`
by itself, so the loop is left at the first test or never: `none` is the loop that
spins forever. -/
def flash_wait_eop (s : Device) : Option Device :=
  if s.SR &&& FLASH_SR_EOP = FLASH_SR_EOP then none else some s

/-- Source function `flash_program_double_word(address, data)`; `none` when it does not
return. The parameters are `uint32_t address` and `uint64_t data`, so the arguments are
taken modulo `2 ^ 32` and `2 ^ 64`. -/
def flash_program_double_word (s : Device) (address data : Nat) : Option Device :=
  let address := address % 2 ^ 32
  let data := data % 2 ^ 64
  let s := unlock_flash s
  let s := flash_wait_for_last_operation s
  let s := hw_writeCR s (s.CR ||| FLASH_CR_PG)
  let s := hw_store32 s address (data % 2 ^ 32)
  let s := hw_store32 s ((address + 4) % 2 ^ 32) ((data >>> 32) % 2 ^ 32)
  let s := flash_wait_for_last_operation s
  match flash_wait_eop s with
  | none => none
  | some s =>
    let s := hw_writeSR s (s.SR &&& not32 FLASH_SR_EOP)
    let s := flash_clear_status_flags s
    let s := hw_writeCR s (s.CR &&& not32 FLASH_CR_PG)
    some (lock_flash s)

/-- Source function `flash_erase_page(bank, page)`; both parameters are `uint8_t`, so the
arguments are taken modulo `2 ^ 8`. -/
def flash_erase_page (s : Device) (bank page : Nat) : Device :=
  let bank := bank % 2 ^ 8
  let page := page % 2 ^ 8
  let s := unlock_flash s
  let s := flash_wait_for_last_operation s
  let s := flash_clear_status_flags s
  let s := hw_writeCR s (s.CR ||| FLASH_CR_PER)
  let s := hw_writeCR s (s.CR ||| (page <<< 3))
  let s := if bank = 1 then hw_writeCR s (s.CR &&& not32 FLASH_CR_BKER)
           else hw_writeCR s (s.CR ||| FLASH_CR_BKER)
  let s := hw_writeCR s (s.CR ||| FLASH_CR_STRT)
  let s := flash_wait_for_last_operation s
  let s := hw_writeCR s (s.CR &&& not32 FLASH_CR_PER)
  lock_flash s

/-! ## Record store -/

/-- The loop `for(int i = 0; i < n; i++) out[i] = copy[i];` that ends `readClubs` and
`readSettings`, from index `i`; `fuel` bounds the rounds and is never the reason to
stop when it starts at `n`. -/
def copy_loop (copy : List Nat) (n : Nat) : Nat → Nat → List Nat → List Nat
  | 0, _, out => out
  | fuel + 1, i, out =>
    if i < n then copy_loop copy n fuel (i + 1) (out.set i copy[i]!) else out

/-- The first loop of `readClubs`, `for(int i = 0; i < 3; i++)`, from index `i`: the
64-bit load, then four times the `(uint16_t)` truncation into `copy`, with
`data = data >> 16` in between.  The first argument bounds the rounds; starting at 3 it
is never the reason to stop. -/
def readClubs_loop : Nat → Nat → Device → List Nat → Device × List Nat
  | 0, _, s, copy => (s, copy)
  | fuel + 1, i, s, copy =>
    if i < 3 then
      let (s, data) := hw_load64 s (CLUB_ADDRESS + 8 * i)
      let copy := copy.set (i * 4) (data % 2 ^ 16)
      let data := data >>> 16
      let copy := copy.set (i * 4 + 1) (data % 2 ^ 16)
      let data := data >>> 16
      let copy := copy.set (i * 4 + 2) (data % 2 ^ 16)
      let data := data >>> 16
      let copy := copy.set (i * 4 + 3) (data % 2 ^ 16)
      readClubs_loop fuel (i + 1) s copy
    else (s, copy)

/-- Source function `readClubs`: the device after the call and the twelve values stored
through `clubs`.  The local array `copy` and the caller's array start as twelve zeros;
the loops overwrite every element of both. -/
def readClubs (s : Device) : Device × List Nat :=
  let (s, copy) := readClubs_loop 3 0 s (List.replicate 12 0)
  (s, copy_loop copy 12 12 0 (List.replicate 12 0))

/-- The four values one round of the first loop of `readClubs` takes out of the double
word it has loaded: each is the `(uint16_t)` truncation, followed by
`data = data >> 16`. -/
def readClubs_group (data : Nat) : List Nat :=
  let c0 := data % 2 ^ 16
  let data := data >>> 16
  let c1 := data % 2 ^ 16
  let data := data >>> 16
  let c2 := data % 2 ^ 16
  let data := data >>> 16
  let c3 := data % 2 ^ 16
  [c0, c1, c2, c3]

/-- The double word one round of the loop of `writeClubs` builds from
`clubs[i] .. clubs[i+3]`: `data = clubs[i]`, then the three
`data |= ((uint64_t)clubs[i+k] << 16*k)`. -/
def writeClubs_word (clubs : List Nat) (i : Nat) : Nat :=
  let data := clubs[i]! % 2 ^ 16
  let data := data ||| ((clubs[i + 1]! % 2 ^ 16) <<< 16) % 2 ^ 64
  let data := data ||| ((clubs[i + 2]! % 2 ^ 16) <<< 32) % 2 ^ 64
  let data := data ||| ((clubs[i + 3]! % 2 ^ 16) <<< 48) % 2 ^ 64
  data

/-- The loop of `writeClubs`, `for(int i = 0; i < 12; i = i+4)`, from index `i` with the
8-bit `offset`; `none` when a call in it does not return.  The first argument bounds the
rounds; starting at 12 it is never the reason to stop. -/
def writeClubs_loop (clubs : List Nat) : Nat → Nat → Nat → Device → Option Device
  | 0, _, _, s => some s
  | fuel + 1, i, offset, s =>
    if i < 12 then
      match flash_program_double_word s (CLUB_ADDRESS + offset) (writeClubs_word clubs i) with
      | none => none
      | some s => writeClubs_loop clubs fuel (i + 4) ((offset + 8) % 2 ^ 8) s
    else some s

/-- Source function `writeClubs`; `none` when it does not return. -/
def writeClubs (s : Device) (clubs : List Nat) : Option Device :=
  let s := flash_erase_page s 2 255
  writeClubs_loop clubs 12 0 0 s

/-- Source function `readSettings`: the device after the call and the two values stored
through `settings`; the arrays start as zeros as in `readClubs`. -/
def readSettings (s : Device) : Device × List Nat :=
  let (s, data) := hw_load64 s SETTINGS_ADDRESS
  let copy : List Nat := List.replicate 2 0
  let copy := copy.set 0 (data % 2 ^ 16)
  let data := data >>> 16
  let copy := copy.set 1 (data % 2 ^ 16)
  (s, copy_loop copy 2 2 0 (List.replicate 2 0))

/-- The double word `writeSettings` builds. -/
def writeSettings_word (settings : List Nat) : Nat :=
  let data := settings[0]! % 2 ^ 16
  let data := data ||| ((settings[1]! % 2 ^ 16) <<< 16) % 2 ^ 64
  data

/-- Source function `writeSettings`; `none` when it does not return. -/
def writeSettings (s : Device) (settings : List Nat) : Option Device :=
  let s := flash_erase_page s 2 0
  flash_program_double_word s SETTINGS_ADDRESS (writeSettings_word settings)

/-- Source function `readPosition`: the device after the call and the value returned. -/
def readPosition (s : Device) : Device × Nat :=
  let (s, data) := hw_load64 s POSITION_ADDRESS
  let copy := data % 2 ^ 16
  let copy := if copy > 12 ∨ copy = 0 then 1 else copy
  (s, copy)

/-- Source function `writePosition`; `none` when it does not return. -/
def writePosition (s : Device) (position : Nat) : Option Device :=
  let s := flash_erase_page s 2 1
  let data := position % 2 ^ 16
  flash_program_double_word s POSITION_ADDRESS data

/-! ## The stores of `flash_erase_page` to the control register -/

/-- The control register when `flash_erase_page` has unlocked and waited: `LOCK` is
clear, and so is the start bit when the wait saw an operation end. -/
def erase_c0 (cr : Nat) (busy : Bool) : Nat :=
  if busy then cr &&& not32 FLASH_CR_LOCK &&& not32 FLASH_CR_STRT
  else cr &&& not32 FLASH_CR_LOCK

/-- The value stored by `FLASH->CR |= FLASH_CR_PER;`. -/
def erase_v1 (c0 : Nat) : Nat := c0 ||| FLASH_CR_PER

/-- The value stored by `FLASH->CR |= page << 3;`. -/
def erase_v2 (c0 page : Nat) : Nat := erase_v1 c0 % 2 ^ 32 ||| (page % 2 ^ 8) <<< 3

/-- The value stored by the bank-select branch. -/
def erase_v3 (c0 bank page : Nat) : Nat :=
  if bank % 2 ^ 8 = 1 then erase_v2 c0 page % 2 ^ 32 &&& not32 FLASH_CR_BKER
  else erase_v2 c0 page % 2 ^ 32 ||| FLASH_CR_BKER

/-- The value stored by `FLASH->CR |= FLASH_CR_STRT;`. -/
def erase_v4 (c0 bank page : Nat) : Nat := erase_v3 c0 bank page % 2 ^ 32 ||| FLASH_CR_STRT

/-- The value stored by `FLASH->CR &= ~FLASH_CR_PER;`, after the operation has ended and
the start bit has dropped. -/
def erase_v5 (c0 bank page : Nat) : Nat :=
  erase_v4 c0 bank page % 2 ^ 32 &&& not32 FLASH_CR_STRT &&& not32 FLASH_CR_PER

/-- The value stored by `lock_flash`. -/
def erase_v6 (c0 bank page : Nat) : Nat := erase_v5 c0 bank page % 2 ^ 32 ||| FLASH_CR_LOCK

/-- The values stored to `FLASH->CR` among the stores of a log, oldest first. -/
def crWrites : List BusWrite → List Nat
  | [] => []
  | BusWrite.cr v :: l => v :: crWrites l
  | BusWrite.keyr _ :: l => crWrites l
  | BusWrite.sr _ :: l => crWrites l
  | BusWrite.mmio32 _ _ :: l => crWrites l

/-- The values stored to `FLASH->SR` among the stores of a log, oldest first. -/
def srWrites : List BusWrite → List Nat
  | [] => []
  | BusWrite.sr v :: l => v :: srWrites l
  | BusWrite.keyr _ :: l => srWrites l
  | BusWrite.cr _ :: l => srWrites l
  | BusWrite.mmio32 _ _ :: l => srWrites l

/-- The stores into the flash array among the stores of a log, oldest first, each as
address and value. -/
def flashWrites : List BusWrite → List (Nat × Nat)
  | [] => []
  | BusWrite.mmio32 a v :: l => (a, v) :: flashWrites l
  | BusWrite.keyr _ :: l => flashWrites l
  | BusWrite.cr _ :: l => flashWrites l
  | BusWrite.sr _ :: l => flashWrites l

/-- Where a store goes: the key register, the control register, the status register or
the flash array. -/
inductive Target where
  | keyr
  | cr
  | sr
  | flash
deriving DecidableEq

/-- The target of a store. -/
def BusWrite.target : BusWrite → Target
  | BusWrite.keyr _ => Target.keyr
  | BusWrite.cr _ => Target.cr
  | BusWrite.sr _ => Target.sr
  | BusWrite.mmio32 _ _ => Target.flash

/-- The targets of the stores issued so far, oldest first. -/
def targets (s : Device) : List Target := s.log.map BusWrite.target

/-- The last value stored to `FLASH->CR` that carries the start bit. -/
def lastStartStore (log : List BusWrite) : Option Nat :=
  (crWrites log).reverse.find? (fun v => v.testBit 16)

/-- The loop of `writeClubs` with an offset counter that is not cut to 8 bits, to
compare `writeClubs_loop` with. -/
def writeClubs_loop_wide (clubs : List Nat) : Nat → Nat → Nat → Device → Option Device
  | 0, _, _, s => some s
  | fuel + 1, i, offset, s =>
    if i < 12 then
      match flash_program_double_word s (CLUB_ADDRESS + offset) (writeClubs_word clubs i) with
      | none => none
      | some s => writeClubs_loop_wide clubs fuel (i + 4) (offset + 8) s
    else some s

/-- The three double words of the clubs record. -/
def clubsCells (s : Device) : List Nat :=
  [load64 s.mem CLUB_ADDRESS, load64 s.mem (CLUB_ADDRESS + 8),
   load64 s.mem (CLUB_ADDRESS + 16)]

/-- The double word of the settings record. -/
def settingsCell (s : Device) : Nat := load64 s.mem SETTINGS_ADDRESS

/-- The double word of the position record. -/
def positionCell (s : Device) : Nat := load64 s.mem POSITION_ADDRESS

/-- The device whose position double word holds the 64-bit value `c`. -/
def withPositionCell (s : Device) (c : Nat) : Device :=
  { s with mem := fun x =>
      if x = POSITION_ADDRESS then c % 2 ^ 32
      else if x = POSITION_ADDRESS + 4 then (c >>> 32) % 2 ^ 32
      else s.mem x }

/-! ## The two parts of `flash_program_double_word` -/

/-- Lines 87 to 99 of `flash_program_double_word`, from `unlock_flash();` to the busy wait
that follows the two flash stores: the part of the call before the poll on `EOP`. -/
def program_until_poll (s : Device) (address data : Nat) : Device :=
  let address := address % 2 ^ 32
  let data := data % 2 ^ 64
  let s := unlock_flash s
  let s := flash_wait_for_last_operation s
  let s := hw_writeCR s (s.CR ||| FLASH_CR_PG)
  let s := hw_store32 s address (data % 2 ^ 32)
  let s := hw_store32 s ((address + 4) % 2 ^ 32) ((data >>> 32) % 2 ^ 32)
  flash_wait_for_last_operation s

/-- Lines 103 to 107 of `flash_program_double_word`, from `FLASH->SR &= ~FLASH_SR_EOP;`
to `lock_flash();`: the part of the call after the poll on `EOP`. -/
def program_after_poll (s : Device) : Device :=
  let s := hw_writeSR s (s.SR &&& not32 FLASH_SR_EOP)
  let s := flash_clear_status_flags s
  let s := hw_writeCR s (s.CR &&& not32 FLASH_CR_PG)
  lock_flash s

/-! ## States used in the examples -/

/-- The controller after reset (`CR = 0xC0000000`: locked) over an erased flash array. -/
def resetDevice : Device :=
  { mem := fun _ => 0xFFFFFFFF, CR := 0xC0000000, SR := 0, key1 := false, wopen := none,
    pending := 0, delay := 2, log := [] }

/-- A locked controller whose page-index field holds 1 and whose bank-select bit is set,
as `writePosition` leaves them, over a flash array full of old data. -/
def usedDevice : Device :=
  { mem := fun _ => 0x12345678, CR := 0xC0000808, SR := 0, key1 := false, wopen := none,
    pending := 0, delay := 2, log := [] }

/-- The controller after reset over a flash array full of old data. -/
def staleDevice : Device :=
  { mem := fun _ => 0x12345678, CR := 0xC0000000, SR := 0, key1 := false, wopen := none,
    pending := 0, delay := 2, log := [] }

/-- A locked controller on which an erase is still running (`BSY` set, the start bit and
the erase-mode bit set, two polls to go) with a programming error flagged, over an erased
flash array. -/
def busyDevice : Device :=
  { mem := fun _ => 0xFFFFFFFF, CR := 0xC0010002, SR := 0x10008, key1 := false,
    wopen := none, pending := 2, delay := 2, log := [] }

/-- A clubs table used in the examples. -/
def exampleClubs : List Nat := [1, 2, 3, 4, 5, 6, 7, 8, 9, 10, 11, 12]

/-! # Proofs -/

/-! ## Bit-level facts -/

@[simp]
theorem testBit_not32 (x i : Nat) :
    (not32 x).testBit i = (decide (i < 32) ^^ x.testBit i) := by
  have h : (0xFFFFFFFF : Nat) = 2 ^ 32 - 1 := by norm_num
  simp only [not32, Nat.testBit_xor, h, Nat.testBit_two_pow_sub_one]

theorem testBit_one_shiftLeft (k i : Nat) : (1 <<< k).testBit i = decide (k = i) := by
  rw [Nat.one_shiftLeft, Nat.testBit_two_pow]

@[simp]
theorem testBit_mod32 (x i : Nat) :
    (x % 4294967296).testBit i = (decide (i < 32) && x.testBit i) :=
  Nat.testBit_mod_two_pow x 32 i

@[simp]
theorem testBit_mod32' (x i : Nat) :
    (x % 2 ^ 32).testBit i = (decide (i < 32) && x.testBit i) :=
  Nat.testBit_mod_two_pow x 32 i

@[simp]
theorem testBit_SR_EOP (i : Nat) : FLASH_SR_EOP.testBit i = decide (0 = i) :=
  testBit_one_shiftLeft 0 i
@[simp]
theorem testBit_SR_PROGERR (i : Nat) : FLASH_SR_PROGERR.testBit i = decide (3 = i) :=
  testBit_one_shiftLeft 3 i
@[simp]
theorem testBit_SR_WRPERR (i : Nat) : FLASH_SR_WRPERR.testBit i = decide (4 = i) :=
  testBit_one_shiftLeft 4 i
@[simp]
theorem testBit_SR_PGAERR (i : Nat) : FLASH_SR_PGAERR.testBit i = decide (5 = i) :=
  testBit_one_shiftLeft 5 i
@[simp]
theorem testBit_SR_SIZERR (i : Nat) : FLASH_SR_SIZERR.testBit i = decide (6 = i) :=
  testBit_one_shiftLeft 6 i
@[simp]
theorem testBit_SR_PGSERR (i : Nat) : FLASH_SR_PGSERR.testBit i = decide (7 = i) :=
  testBit_one_shiftLeft 7 i
@[simp]
theorem testBit_SR_BSY (i : Nat) : FLASH_SR_BSY.testBit i = decide (16 = i) :=
  testBit_one_shiftLeft 16 i
@[simp]
theorem testBit_CR_PG (i : Nat) : FLASH_CR_PG.testBit i = decide (0 = i) :=
  testBit_one_shiftLeft 0 i
@[simp]
theorem testBit_CR_PER (i : Nat) : FLASH_CR_PER.testBit i = decide (1 = i) :=
  testBit_one_shiftLeft 1 i
@[simp]
theorem testBit_CR_BKER (i : Nat) : FLASH_CR_BKER.testBit i = decide (11 = i) :=
  testBit_one_shiftLeft 11 i
@[simp]
theorem testBit_CR_STRT (i : Nat) : FLASH_CR_STRT.testBit i = decide (16 = i) :=
  testBit_one_shiftLeft 16 i
@[simp]
theorem testBit_CR_OPTLOCK (i : Nat) : FLASH_CR_OPTLOCK.testBit i = decide (30 = i) :=
  testBit_one_shiftLeft 30 i
@[simp]
theorem testBit_CR_LOCK (i : Nat) : FLASH_CR_LOCK.testBit i = decide (31 = i) :=
  testBit_one_shiftLeft 31 i

theorem and_one_shiftLeft_eq_iff (x k : Nat) :
    x &&& (1 <<< k) = 1 <<< k ↔ x.testBit k = true := by
  constructor
  · intro h
    have := congrArg (fun y => y.testBit k) h
    simpa [testBit_one_shiftLeft] using this
  · intro h
    apply Nat.eq_of_testBit_eq
    intro i
    simp only [Nat.testBit_and, testBit_one_shiftLeft]
    by_cases hk : k = i
    · subst hk; simp [h]
    · simp [hk]

@[simp]
theorem and_BSY_eq_iff (x : Nat) : x &&& FLASH_SR_BSY = FLASH_SR_BSY ↔ x.testBit 16 = true :=
  and_one_shiftLeft_eq_iff x 16

@[simp]
theorem and_EOP_eq_iff (x : Nat) : x &&& FLASH_SR_EOP = FLASH_SR_EOP ↔ x.testBit 0 = true :=
  and_one_shiftLeft_eq_iff x 0

/-! ## The sequencer's primitives in closed form -/

theorem unlock_flash_eq (s : Device) :
    unlock_flash s =
      { s with CR := s.CR &&& not32 FLASH_CR_LOCK, key1 := false,
               log := s.log ++ [BusWrite.keyr 0x45670123, BusWrite.keyr 0xCDEF89AB] } := by
  simp [unlock_flash, hw_writeKEYR]

theorem flash_wait_loop_eq (p : Nat) :
    ∀ s : Device, s.pending = p →
      flash_wait_loop (p + 1) s =
        if s.SR.testBit 16 then
          { s with SR := (s.SR &&& not32 FLASH_SR_BSY)
                          ||| (if s.CR.testBit 24 then FLASH_SR_EOP else 0),
                   CR := s.CR &&& not32 FLASH_CR_STRT, pending := 0 }
        else s := by
  induction p with
  | zero =>
    intro s hp
    obtain ⟨mem, cr, sr, key1, wopen, pending, delay, log⟩ := s
    simp only at hp
    subst hp
    by_cases hb : sr.testBit 16 = true <;>
      simp [flash_wait_loop, hw_tick, and_BSY_eq_iff, hb]
  | succ p ih =>
    intro s hp
    by_cases hb : s.SR.testBit 16 = true
    · have := ih { s with pending := p } rfl
      rw [flash_wait_loop]
      simp only [and_BSY_eq_iff, hb, if_true, hw_tick, hp]
      simpa [hb] using this
    · rw [flash_wait_loop]
      simp [and_BSY_eq_iff, hb]

theorem flash_wait_eq (s : Device) :
    flash_wait_for_last_operation s =
      if s.SR.testBit 16 then
        { s with SR := (s.SR &&& not32 FLASH_SR_BSY)
                        ||| (if s.CR.testBit 24 then FLASH_SR_EOP else 0),
                 CR := s.CR &&& not32 FLASH_CR_STRT, pending := 0 }
      else s :=
  flash_wait_loop_eq s.pending s rfl

/-! ## Field by field: what each primitive does -/

@[simp]
theorem unlock_flash_mem (s : Device) : (unlock_flash s).mem = s.mem := by
  rw [unlock_flash_eq]
@[simp]
theorem unlock_flash_CR (s : Device) :
    (unlock_flash s).CR = s.CR &&& not32 FLASH_CR_LOCK := by
  rw [unlock_flash_eq]
@[simp]
theorem unlock_flash_SR (s : Device) : (unlock_flash s).SR = s.SR := by
  rw [unlock_flash_eq]
@[simp]
theorem unlock_flash_wopen (s : Device) : (unlock_flash s).wopen = s.wopen := by
  rw [unlock_flash_eq]

@[simp]
theorem flash_wait_mem (s : Device) :
    (flash_wait_for_last_operation s).mem = s.mem := by
  rw [flash_wait_eq]; split <;> rfl
@[simp]
theorem flash_wait_wopen (s : Device) :
    (flash_wait_for_last_operation s).wopen = s.wopen := by
  rw [flash_wait_eq]; split <;> rfl
@[simp]
theorem flash_wait_CR (s : Device) :
    (flash_wait_for_last_operation s).CR =
      if s.SR.testBit 16 then s.CR &&& not32 FLASH_CR_STRT else s.CR := by
  rw [flash_wait_eq]; split <;> rfl
@[simp]
theorem flash_wait_SR (s : Device) :
    (flash_wait_for_last_operation s).SR =
      if s.SR.testBit 16 then
        (s.SR &&& not32 FLASH_SR_BSY) ||| (if s.CR.testBit 24 then FLASH_SR_EOP else 0)
      else s.SR := by
  rw [flash_wait_eq]; split <;> rfl

@[simp]
theorem hw_writeSR_mem (s : Device) (v : Nat) : (hw_writeSR s v).mem = s.mem := rfl
@[simp]
theorem hw_writeSR_CR (s : Device) (v : Nat) : (hw_writeSR s v).CR = s.CR := rfl
@[simp]
theorem hw_writeSR_wopen (s : Device) (v : Nat) : (hw_writeSR s v).wopen = s.wopen := rfl
@[simp]
theorem hw_writeSR_SR (s : Device) (v : Nat) :
    (hw_writeSR s v).SR = s.SR &&& not32 (v &&& FLASH_SR_W1C) := rfl

@[simp]
theorem flash_clear_status_flags_mem (s : Device) :
    (flash_clear_status_flags s).mem = s.mem := rfl
@[simp]
theorem flash_clear_status_flags_CR (s : Device) :
    (flash_clear_status_flags s).CR = s.CR := rfl
@[simp]
theorem flash_clear_status_flags_wopen (s : Device) :
    (flash_clear_status_flags s).wopen = s.wopen := rfl

theorem testBit_W1C_lt (i : Nat) (h : FLASH_SR_W1C.testBit i = true) : i < 32 := by
  by_contra hge
  have h32 : FLASH_SR_W1C < 2 ^ i :=
    lt_of_lt_of_le (by decide : FLASH_SR_W1C < 2 ^ 32)
      (Nat.pow_le_pow_right (by decide) (by omega))
  rw [Nat.testBit_lt_two_pow h32] at h
  exact Bool.false_ne_true h

/-- A read-modify-write of `SR` that sets one more bit writes a one to every flag that
is set, so it clears all of them. -/
theorem testBit_SR_after_or (sr x i : Nat) :
    (sr &&& not32 ((sr ||| x) &&& FLASH_SR_W1C)).testBit i =
      (sr.testBit i && decide (i < 32) && !FLASH_SR_W1C.testBit i) := by
  simp only [Nat.testBit_and, Nat.testBit_or, testBit_not32]
  have hw := testBit_W1C_lt i
  cases hW : FLASH_SR_W1C.testBit i
  · cases sr.testBit i <;> cases x.testBit i <;> cases decide (i < 32) <;> rfl
  · have : decide (i < 32) = true := by simpa using hw hW
    rw [this]
    cases sr.testBit i <;> cases x.testBit i <;> rfl

@[simp]
theorem flash_clear_status_flags_SR (s : Device) (i : Nat) :
    (flash_clear_status_flags s).SR.testBit i =
      (s.SR.testBit i && decide (i < 32) && !FLASH_SR_W1C.testBit i) := by
  simp only [flash_clear_status_flags, flash_clear_pgserr_flag, flash_clear_size_flag,
    flash_clear_pgaerr_flag, flash_clear_wrperr_flag, flash_clear_progerr_flag,
    flash_clear_eop_flag, hw_writeSR_SR, testBit_SR_after_or]
  cases s.SR.testBit i <;> cases FLASH_SR_W1C.testBit i <;> cases decide (i < 32) <;> rfl

@[simp]
theorem hw_writeCR_CR (s : Device) (v : Nat) :
    (hw_writeCR s v).CR = if s.CR.testBit 31 then s.CR else v % 2 ^ 32 := by
  unfold hw_writeCR
  simp only []
  split
  · rfl
  · split <;> rfl

@[simp]
theorem hw_writeCR_mem (s : Device) (v : Nat) :
    (hw_writeCR s v).mem =
      if s.CR.testBit 31 = false ∧ v.testBit 16 = true ∧ v.testBit 1 = true then
        hw_erase s.mem (v.testBit 11) (pnbField (v % 2 ^ 32))
      else s.mem := by
  unfold hw_writeCR
  by_cases h : s.CR.testBit 31 = true
  · simp [h]
  · by_cases h16 : v.testBit 16 = true <;> by_cases h1 : v.testBit 1 = true <;>
      simp [h, h16, h1, testBit_mod32]

@[simp]
theorem hw_writeCR_SR (s : Device) (v : Nat) :
    (hw_writeCR s v).SR =
      if s.CR.testBit 31 = false ∧ v.testBit 16 = true ∧ v.testBit 1 = true then
        s.SR ||| FLASH_SR_BSY
      else s.SR := by
  unfold hw_writeCR
  by_cases h : s.CR.testBit 31 = true
  · simp [h]
  · by_cases h16 : v.testBit 16 = true <;> by_cases h1 : v.testBit 1 = true <;>
      simp [h, h16, h1, testBit_mod32]

@[simp]
theorem hw_writeCR_wopen (s : Device) (v : Nat) : (hw_writeCR s v).wopen = s.wopen := by
  unfold hw_writeCR
  simp only []
  split
  · rfl
  · split <;> rfl


@[simp]
theorem testBit_W1C_0 : FLASH_SR_W1C.testBit 0 = true := by decide
@[simp]
theorem testBit_W1C_3 : FLASH_SR_W1C.testBit 3 = true := by decide
@[simp]
theorem testBit_W1C_16 : FLASH_SR_W1C.testBit 16 = false := by decide

@[simp]
theorem hw_store32_CR (s : Device) (a v : Nat) : (hw_store32 s a v).CR = s.CR := by
  unfold hw_store32
  simp only []
  split
  · rfl
  · split
    · split <;> rfl
    · split <;> rfl

theorem hw_store32_mem (s : Device) (a v : Nat) :
    (hw_store32 s a v).mem =
      if s.CR.testBit 31 = false ∧ s.CR.testBit 0 = true ∧
          ((a % 8 = 0 ∧ load64 s.mem a = 0xFFFFFFFFFFFFFFFF) ∨
            (a % 8 ≠ 0 ∧ s.wopen = some (a - 4) ∧ 4 ≤ a)) then
        fun x => if x = a then v % 2 ^ 32 else s.mem x
      else s.mem := by
  unfold hw_store32
  cases hl : s.CR.testBit 31 <;> cases hp : s.CR.testBit 0 <;>
    simp only [hl, hp, Bool.or_false, Bool.or_true, Bool.not_true, Bool.not_false, if_true,
      if_false, true_and, false_and, and_true, and_false, Bool.false_eq_true] <;>
    split_ifs <;> first | rfl | (exfalso; tauto)

theorem hw_store32_wopen (s : Device) (a v : Nat) :
    (hw_store32 s a v).wopen =
      if s.CR.testBit 31 = false ∧ s.CR.testBit 0 = true then
        if a % 8 = 0 ∧ load64 s.mem a = 0xFFFFFFFFFFFFFFFF then some a else none
      else s.wopen := by
  unfold hw_store32
  cases hl : s.CR.testBit 31 <;> cases hp : s.CR.testBit 0 <;>
    simp only [hl, hp, Bool.or_false, Bool.or_true, Bool.not_true, Bool.not_false, if_true,
      if_false, true_and, false_and, and_true, and_false, Bool.false_eq_true] <;>
    split_ifs <;> first | rfl | (exfalso; tauto)

theorem hw_store32_SR (s : Device) (a v : Nat) :
    (hw_store32 s a v).SR =
      if s.CR.testBit 31 = false ∧ s.CR.testBit 0 = true then
        if a % 8 = 0 then
          if load64 s.mem a = 0xFFFFFFFFFFFFFFFF then s.SR else s.SR ||| FLASH_SR_PROGERR
        else if s.wopen = some (a - 4) ∧ 4 ≤ a then s.SR ||| FLASH_SR_BSY
        else s.SR ||| FLASH_SR_PROGERR
      else s.SR := by
  unfold hw_store32
  cases hl : s.CR.testBit 31 <;> cases hp : s.CR.testBit 0 <;>
    simp only [hl, hp, Bool.or_false, Bool.or_true, Bool.not_true, Bool.not_false, if_true,
      if_false, true_and, false_and, and_true, and_false, Bool.false_eq_true] <;>
    split_ifs <;> first | rfl | (exfalso; tauto)

@[simp]
theorem testBit_ite (c : Prop) [Decidable c] (a b i : Nat) :
    (if c then a else b).testBit i = if c then a.testBit i else b.testBit i := by
  split <;> rfl

@[simp]
theorem testBit_mod256 (x i : Nat) :
    (x % 256).testBit i = (decide (i < 8) && x.testBit i) :=
  Nat.testBit_mod_two_pow x 8 i

theorem testBit_pnbField (c i : Nat) :
    (pnbField c).testBit i = (decide (i < 8) && c.testBit (3 + i)) := by
  unfold pnbField
  have h : (256 : Nat) = 2 ^ 8 := by norm_num
  rw [h, Nat.testBit_mod_two_pow, Nat.testBit_shiftRight]

theorem pnbField_congr (a b : Nat)
    (h : ∀ k, 3 ≤ k → k ≤ 10 → a.testBit k = b.testBit k) : pnbField a = pnbField b := by
  apply Nat.eq_of_testBit_eq
  intro i
  rw [testBit_pnbField, testBit_pnbField]
  by_cases hi : i < 8
  · rw [h (3 + i) (by omega) (by omega)]
  · simp [hi]

theorem pnbField_lt (c : Nat) : pnbField c < 256 := Nat.mod_lt _ (by norm_num)

/-- The page-index field after `x |= page << 3` is the old field or-ed with `page`. -/
theorem pnbField_or_of_bits (c c' page : Nat)
    (h : ∀ k, 3 ≤ k → k ≤ 10 → c'.testBit k = (c.testBit k || page.testBit (k - 3))) :
    pnbField c' = pnbField c ||| page % 256 := by
  apply Nat.eq_of_testBit_eq
  intro i
  rw [testBit_pnbField, Nat.testBit_or, testBit_pnbField, testBit_mod256]
  by_cases hi : i < 8
  · rw [h (3 + i) (by omega) (by omega)]
    simp [hi]
  · simp [hi]

/-! ## `flash_erase_page` in closed form -/

theorem erase_CR_eq (s : Device) (bank page : Nat) :
    (flash_erase_page s bank page).CR =
      erase_v6 (erase_c0 s.CR (s.SR.testBit 16)) bank page % 2 ^ 32 := by
  by_cases hb : bank % 256 = 1 <;> by_cases hbs : s.SR.testBit 16 = true <;>
    simp [-Nat.testBit_zero, flash_erase_page, lock_flash, hb, hbs, erase_v6, erase_v5,
      erase_v4, erase_v3, erase_v2, erase_v1, erase_c0]

theorem erase_v4_BKER (c0 bank page : Nat) :
    (erase_v4 c0 bank page).testBit 11 = decide (bank % 256 ≠ 1) := by
  by_cases hb : bank % 256 = 1 <;> simp [erase_v4, erase_v3, hb]

theorem erase_v4_STRT (c0 bank page : Nat) : (erase_v4 c0 bank page).testBit 16 = true := by
  simp [erase_v4]

theorem erase_c0_LOCK (cr : Nat) (busy : Bool) : (erase_c0 cr busy).testBit 31 = false := by
  cases busy <;> simp [erase_c0]

theorem erase_v4_pnb (cr : Nat) (busy : Bool) (bank page : Nat) :
    pnbField (erase_v4 (erase_c0 cr busy) bank page % 2 ^ 32) = pnbField cr ||| page % 256 := by
  apply pnbField_or_of_bits
  intro k h3 h10
  by_cases hb : bank % 256 = 1 <;> cases busy <;> interval_cases k <;>
    simp [-Nat.testBit_zero, erase_v4, erase_v3, erase_v2, erase_v1, erase_c0, hb]

theorem erase_mem_eq (s : Device) (bank page : Nat) :
    (flash_erase_page s bank page).mem =
      hw_erase
        (if s.SR.testBit 16 = false ∧ s.CR.testBit 16 = true then
          hw_erase
            (hw_erase
              (hw_erase s.mem ((erase_v1 (erase_c0 s.CR false)).testBit 11)
                (pnbField (erase_v1 (erase_c0 s.CR false) % 2 ^ 32)))
              ((erase_v2 (erase_c0 s.CR false) page).testBit 11)
              (pnbField (erase_v2 (erase_c0 s.CR false) page % 2 ^ 32)))
            ((erase_v3 (erase_c0 s.CR false) bank page).testBit 11)
            (pnbField (erase_v3 (erase_c0 s.CR false) bank page % 2 ^ 32))
        else s.mem)
        (decide (bank % 256 ≠ 1)) (pnbField s.CR ||| page % 256) := by
  rw [← erase_v4_pnb s.CR (s.SR.testBit 16) bank page,
    ← erase_v4_BKER (erase_c0 s.CR (s.SR.testBit 16)) bank page]
  by_cases hb : bank % 256 = 1 <;> by_cases hbs : s.SR.testBit 16 = true <;>
    by_cases hst : s.CR.testBit 16 = true <;>
    simp [-Nat.testBit_zero, flash_erase_page, lock_flash, hb, hbs, hst, erase_v4,
      erase_v3, erase_v2, erase_v1, erase_c0]


/-! ## `flash_erase_page`, bit by bit -/

theorem erase_CR_LOCK (s : Device) (bank page : Nat) :
    (flash_erase_page s bank page).CR.testBit 31 = true := by
  rw [erase_CR_eq]; simp [erase_v6]

theorem erase_CR_PER (s : Device) (bank page : Nat) :
    (flash_erase_page s bank page).CR.testBit 1 = false := by
  rw [erase_CR_eq]; simp [erase_v6, erase_v5]

theorem erase_CR_STRT (s : Device) (bank page : Nat) :
    (flash_erase_page s bank page).CR.testBit 16 = false := by
  rw [erase_CR_eq]; simp [erase_v6, erase_v5]

theorem erase_CR_BKER (s : Device) (bank page : Nat) :
    (flash_erase_page s bank page).CR.testBit 11 = decide (bank % 256 ≠ 1) := by
  rw [erase_CR_eq, ← erase_v4_BKER (erase_c0 s.CR (s.SR.testBit 16)) bank page]
  simp [erase_v6, erase_v5]

theorem erase_CR_EOPIE (s : Device) (bank page : Nat) :
    (flash_erase_page s bank page).CR.testBit 24 = s.CR.testBit 24 := by
  rw [erase_CR_eq]
  by_cases hb : bank % 256 = 1 <;> cases s.SR.testBit 16 <;>
    simp [erase_v6, erase_v5, erase_v4, erase_v3, erase_v2, erase_v1, erase_c0, hb]

theorem erase_CR_PG (s : Device) (bank page : Nat) :
    (flash_erase_page s bank page).CR.testBit 0 = s.CR.testBit 0 := by
  rw [erase_CR_eq]
  by_cases hb : bank % 256 = 1 <;> cases s.SR.testBit 16 <;>
    simp [-Nat.testBit_zero, erase_v6, erase_v5, erase_v4, erase_v3, erase_v2, erase_v1,
      erase_c0, hb]

theorem erase_CR_pnb (s : Device) (bank page : Nat) :
    pnbField (flash_erase_page s bank page).CR = pnbField s.CR ||| page % 256 := by
  rw [erase_CR_eq, ← erase_v4_pnb s.CR (s.SR.testBit 16) bank page]
  apply pnbField_congr
  intro k h3 h10
  interval_cases k <;> simp [erase_v6, erase_v5]

theorem erase_SR_BSY (s : Device) (bank page : Nat) :
    (flash_erase_page s bank page).SR.testBit 16 = false := by
  by_cases hb : bank % 256 = 1 <;> simp [-Nat.testBit_zero, flash_erase_page, lock_flash, hb]

theorem erase_SR_EOP (s : Device) (bank page : Nat) :
    (flash_erase_page s bank page).SR.testBit 0 = s.CR.testBit 24 := by
  by_cases hb : bank % 256 = 1 <;> simp [-Nat.testBit_zero, flash_erase_page, lock_flash, hb]

/-- Every cell of the page the erase selects is all-ones afterwards. -/
theorem erase_mem_inPage (s : Device) (bank page x : Nat)
    (h : inPage (decide (bank % 256 ≠ 1)) (pnbField s.CR ||| page % 256) x = true) :
    (flash_erase_page s bank page).mem x = 0xFFFFFFFF := by
  rw [erase_mem_eq]
  simp only [hw_erase, h, if_true]

/-- A cell is either untouched by `flash_erase_page` or all-ones after it. -/
theorem erase_mem_cases (s : Device) (bank page x : Nat) :
    (flash_erase_page s bank page).mem x = s.mem x ∨
      (flash_erase_page s bank page).mem x = 0xFFFFFFFF := by
  have step : ∀ (m : Nat → Nat) (b : Bool) (p : Nat),
      (m x = s.mem x ∨ m x = 0xFFFFFFFF) →
        (hw_erase m b p x = s.mem x ∨ hw_erase m b p x = 0xFFFFFFFF) := by
    intro m b p hm
    unfold hw_erase
    split
    · exact Or.inr rfl
    · exact hm
  rw [erase_mem_eq]
  apply step
  split
  · exact step _ _ _ (step _ _ _ (step _ _ _ (Or.inl rfl)))
  · exact Or.inl rfl

/-- With the start bit clear on entry (or an operation still running, which clears it),
exactly the selected page is erased. -/
theorem erase_mem_of_quiet (s : Device) (bank page : Nat)
    (h : s.SR.testBit 16 = true ∨ s.CR.testBit 16 = false) :
    (flash_erase_page s bank page).mem =
      hw_erase s.mem (decide (bank % 256 ≠ 1)) (pnbField s.CR ||| page % 256) := by
  rw [erase_mem_eq]
  have : ¬ (s.SR.testBit 16 = false ∧ s.CR.testBit 16 = true) := by
    rcases h with h | h <;> simp [h]
  rw [if_neg this]

theorem pnbField_or_255 (c : Nat) : pnbField c ||| 255 = 255 := by
  apply Nat.eq_of_testBit_eq
  intro i
  have h : (255 : Nat) = 2 ^ 8 - 1 := by norm_num
  rw [Nat.testBit_or, testBit_pnbField, h, Nat.testBit_two_pow_sub_one]
  cases decide (i < 8) <;> simp

/-! ## `flash_program_double_word` -/

theorem wait_keeps_EOP (s : Device) (h : s.SR.testBit 0 = true) :
    (flash_wait_for_last_operation s).SR.testBit 0 = true := by
  rw [flash_wait_SR]
  split <;> simp [-Nat.testBit_zero, h]

theorem writeCR_keeps_EOP (s : Device) (v : Nat) (h : s.SR.testBit 0 = true) :
    (hw_writeCR s v).SR.testBit 0 = true := by
  rw [hw_writeCR_SR]
  split <;> simp [-Nat.testBit_zero, h]

theorem store32_keeps_EOP (s : Device) (a v : Nat) (h : s.SR.testBit 0 = true) :
    (hw_store32 s a v).SR.testBit 0 = true := by
  rw [hw_store32_SR]
  split_ifs <;> simp [-Nat.testBit_zero, h]

/-- With `EOP` set on entry the call never returns. -/
theorem program_none_of_EOP (s : Device) (a d : Nat) (h : s.SR.testBit 0 = true) :
    flash_program_double_word s a d = none := by
  have key : (flash_wait_for_last_operation
      (hw_store32 (hw_store32 (hw_writeCR (flash_wait_for_last_operation (unlock_flash s))
        ((flash_wait_for_last_operation (unlock_flash s)).CR ||| FLASH_CR_PG))
          (a % 2 ^ 32) (d % 2 ^ 64 % 2 ^ 32))
        ((a % 2 ^ 32 + 4) % 2 ^ 32) (((d % 2 ^ 64) >>> 32) % 2 ^ 32))).SR.testBit 0 = true := by
    apply wait_keeps_EOP
    apply store32_keeps_EOP
    apply store32_keeps_EOP
    apply writeCR_keeps_EOP
    apply wait_keeps_EOP
    rw [unlock_flash_SR]
    exact h
  unfold flash_program_double_word
  simp only [flash_wait_eop, and_EOP_eq_iff, key, if_true]

theorem program_phase1 (s : Device) (hB : s.SR.testBit 16 = false)
    (hS : s.CR.testBit 16 = false) :
    (hw_writeCR (flash_wait_for_last_operation (unlock_flash s))
      ((flash_wait_for_last_operation (unlock_flash s)).CR ||| FLASH_CR_PG)).mem = s.mem ∧
    (hw_writeCR (flash_wait_for_last_operation (unlock_flash s))
      ((flash_wait_for_last_operation (unlock_flash s)).CR ||| FLASH_CR_PG)).SR = s.SR ∧
    (hw_writeCR (flash_wait_for_last_operation (unlock_flash s))
      ((flash_wait_for_last_operation (unlock_flash s)).CR ||| FLASH_CR_PG)).CR =
        ((s.CR &&& not32 FLASH_CR_LOCK) ||| FLASH_CR_PG) % 2 ^ 32 := by
  simp [-Nat.testBit_zero, hB, hS]

theorem program_phase2 (t : Device) (a lo hi : Nat) (hL : t.CR.testBit 31 = false)
    (hP : t.CR.testBit 0 = true) (ha : a % 8 = 0) :
    ∀ u, u = hw_store32 (hw_store32 t a lo) (a + 4) hi →
    u.CR = t.CR ∧
    u.mem = (if load64 t.mem a = 0xFFFFFFFFFFFFFFFF then
          fun x => if x = a + 4 then hi % 2 ^ 32 else if x = a then lo % 2 ^ 32 else t.mem x
        else t.mem) ∧
    u.SR = (if load64 t.mem a = 0xFFFFFFFFFFFFFFFF then t.SR ||| FLASH_SR_BSY
        else t.SR ||| FLASH_SR_PROGERR ||| FLASH_SR_PROGERR) := by
  have hmod : a + 4 - 4 = a := by omega
  have ha8 : ¬ (a + 4) % 8 = 0 := by omega
  have h4 : 4 ≤ a + 4 := by omega
  intro u hu
  subst hu
  refine ⟨by simp, ?_, ?_⟩
  · by_cases hEr : load64 t.mem a = 0xFFFFFFFFFFFFFFFF
    · simp only [hw_store32_mem, hw_store32_CR, hw_store32_wopen, hL, hP, ha, ha8, hmod,
        hEr, h4, and_self, true_and, and_true, if_true, true_or, or_true, ne_eq,
        not_false_eq_true, false_and, false_or]
    · simp only [hw_store32_mem, hw_store32_CR, hw_store32_wopen, hL, hP, ha, ha8, hmod,
        hEr, h4, and_self, true_and, and_true, if_true, true_or, or_true, ne_eq,
        not_false_eq_true, false_and, false_or, and_false, if_false, or_self]
      simp
  · by_cases hEr : load64 t.mem a = 0xFFFFFFFFFFFFFFFF
    · simp only [hw_store32_mem, hw_store32_CR, hw_store32_SR, hw_store32_wopen, hL, hP, ha,
        ha8, hmod, hEr, h4, and_self, true_and, and_true, if_true, if_false]
    · simp only [hw_store32_mem, hw_store32_CR, hw_store32_SR, hw_store32_wopen, hL, hP, ha,
        ha8, hmod, hEr, h4, and_self, true_and, and_true, if_true, if_false, and_false]
      simp


/-- What a call of `flash_program_double_word` on a quiet controller leaves behind. -/
theorem program_spec (s : Device) (a d : Nat)
    (hB : s.SR.testBit 16 = false) (hS : s.CR.testBit 16 = false)
    (hE : s.SR.testBit 0 = false) (hI : s.CR.testBit 24 = false)
    (ha : a % 8 = 0) (ha4 : a + 4 < 2 ^ 32) :
    ∃ s', flash_program_double_word s a d = some s' ∧
      s'.mem = (if load64 s.mem a = 0xFFFFFFFFFFFFFFFF then
          fun x => if x = a + 4 then (d >>> 32) % 2 ^ 32 else if x = a then d % 2 ^ 32
            else s.mem x
        else s.mem) ∧
      s'.SR.testBit 16 = false ∧ s'.SR.testBit 0 = false ∧
      s'.CR.testBit 31 = true ∧ s'.CR.testBit 24 = false ∧ s'.CR.testBit 16 = false ∧
      s'.CR.testBit 11 = s.CR.testBit 11 ∧ s'.CR.testBit 1 = s.CR.testBit 1 ∧
      s'.CR.testBit 0 = false ∧ pnbField s'.CR = pnbField s.CR := by
  have ha' : (a + 4) % 2 ^ 32 = a + 4 := Nat.mod_eq_of_lt ha4
  have ha0 : a % 2 ^ 32 = a := Nat.mod_eq_of_lt (by omega)
  have hd0 : d % 2 ^ 64 % 2 ^ 32 = d % 2 ^ 32 := by omega
  have hd1 : ((d % 2 ^ 64) >>> 32) % 2 ^ 32 = (d >>> 32) % 2 ^ 32 := by
    rw [Nat.shiftRight_eq_div_pow, Nat.shiftRight_eq_div_pow]
    omega
  obtain ⟨h1m, h1s, h1c⟩ := program_phase1 s hB hS
  unfold flash_program_double_word
  simp only [ha0, ha', hd0, hd1]
  generalize hw_writeCR (flash_wait_for_last_operation (unlock_flash s))
      ((flash_wait_for_last_operation (unlock_flash s)).CR ||| FLASH_CR_PG) = t
    at h1m h1s h1c ⊢
  have hL : t.CR.testBit 31 = false := by rw [h1c]; simp
  have hP : t.CR.testBit 0 = true := by rw [h1c]; simp [-Nat.testBit_zero]
  obtain ⟨h2c, h2m, h2s⟩ := program_phase2 t a (d % 2 ^ 32) ((d >>> 32) % 2 ^ 32) hL hP ha
    _ rfl
  generalize hw_store32 (hw_store32 t a (d % 2 ^ 32)) (a + 4) ((d >>> 32) % 2 ^ 32) = u
    at h2c h2m h2s ⊢
  rw [h1m] at h2m
  rw [h1s] at h2s
  rw [h1c] at h2c
  have hu0 : u.SR.testBit 0 = false := by
    rw [h2s]; split <;> simp [-Nat.testBit_zero, hE]
  have hu24 : u.CR.testBit 24 = false := by rw [h2c]; simp [hI]
  have hu31 : u.CR.testBit 31 = false := by rw [h2c]; simp
  have hu16 : u.CR.testBit 16 = false := by rw [h2c]; simp [hS]
  have hu11 : u.CR.testBit 11 = s.CR.testBit 11 := by rw [h2c]; simp
  have hu1 : u.CR.testBit 1 = s.CR.testBit 1 := by rw [h2c]; simp
  have hupnb : ∀ k, 3 ≤ k → k ≤ 10 → u.CR.testBit k = s.CR.testBit k := by
    intro k h3 h10
    rw [h2c]
    interval_cases k <;> simp
  have hw : flash_wait_eop (flash_wait_for_last_operation u)
      = some (flash_wait_for_last_operation u) := by
    have : (flash_wait_for_last_operation u).SR.testBit 0 = false := by
      rw [flash_wait_SR]
      split <;> simp [-Nat.testBit_zero, hu0, hu24]
    simp only [flash_wait_eop, and_EOP_eq_iff, this, Bool.false_eq_true, if_false]
  rw [hw]
  refine ⟨_, rfl, ?_, ?_, ?_, ?_, ?_, ?_, ?_, ?_, ?_, ?_⟩
  · simp [-Nat.testBit_zero, lock_flash, hu31, hu16, h2m]
  · by_cases hb : u.SR.testBit 16 = true <;>
      simp [-Nat.testBit_zero, lock_flash, hu31, hu16, hb]
  · by_cases hb : u.SR.testBit 16 = true <;>
      simp [-Nat.testBit_zero, lock_flash, hu31, hu16, hb]
  · by_cases hb : u.SR.testBit 16 = true <;>
      simp [-Nat.testBit_zero, lock_flash, hu31, hu16, hb]
  · by_cases hb : u.SR.testBit 16 = true <;>
      simp [-Nat.testBit_zero, lock_flash, hu31, hu16, hb, hu24]
  · by_cases hb : u.SR.testBit 16 = true <;>
      simp [-Nat.testBit_zero, lock_flash, hu31, hu16, hb]
  · by_cases hb : u.SR.testBit 16 = true <;>
      simp [-Nat.testBit_zero, lock_flash, hu31, hu16, hb, hu11]
  · by_cases hb : u.SR.testBit 16 = true <;>
      simp [-Nat.testBit_zero, lock_flash, hu31, hu16, hb, hu1]
  · by_cases hb : u.SR.testBit 16 = true <;>
      simp [-Nat.testBit_zero, lock_flash, hu31, hu16, hb]
  · apply pnbField_congr
    intro k h3 h10
    rw [← hupnb k h3 h10]
    by_cases hb : u.SR.testBit 16 = true <;>
      interval_cases k <;> simp [-Nat.testBit_zero, lock_flash, hu31, hu16, hb]

theorem writeClubs_unroll (s : Device) (clubs : List Nat) :
    writeClubs s clubs =
      (flash_program_double_word (flash_erase_page s 2 255) CLUB_ADDRESS
          (writeClubs_word clubs 0)).bind (fun s1 =>
        (flash_program_double_word s1 (CLUB_ADDRESS + 8) (writeClubs_word clubs 4)).bind
          (fun s2 =>
            flash_program_double_word s2 (CLUB_ADDRESS + 16) (writeClubs_word clubs 8))) := by
  simp only [writeClubs, writeClubs_loop]
  norm_num
  cases flash_program_double_word (flash_erase_page s 2 255) CLUB_ADDRESS
      (writeClubs_word clubs 0) with
  | none => rfl
  | some s1 =>
    simp only [Option.bind]
    cases flash_program_double_word s1 (CLUB_ADDRESS + 8) (writeClubs_word clubs 4) with
    | none => rfl
    | some s2 =>
      simp only []
      cases flash_program_double_word s2 (CLUB_ADDRESS + 16) (writeClubs_word clubs 8) <;> rfl

theorem readClubs_unroll (s : Device) :
    readClubs s = (s, readClubs_group (load64 s.mem CLUB_ADDRESS) ++
      readClubs_group (load64 s.mem (CLUB_ADDRESS + 8)) ++
      readClubs_group (load64 s.mem (CLUB_ADDRESS + 16))) := by
  simp [readClubs, readClubs_loop, copy_loop, hw_load64, readClubs_group]

theorem readSettings_unroll (s : Device) :
    readSettings s = (s, [load64 s.mem SETTINGS_ADDRESS % 2 ^ 16,
      (load64 s.mem SETTINGS_ADDRESS >>> 16) % 2 ^ 16]) := by
  simp [readSettings, copy_loop, hw_load64]

/-! ## Packing and unpacking -/

theorem pack2_eq (a b : Nat) (ha : a < 2 ^ 16) (hb : b < 2 ^ 16) :
    (a % 2 ^ 16 ||| ((b % 2 ^ 16) <<< 16) % 2 ^ 64) = a + 2 ^ 16 * b := by
  rw [Nat.mod_eq_of_lt ha, Nat.mod_eq_of_lt hb, Nat.shiftLeft_eq,
    Nat.mod_eq_of_lt (by omega), Nat.or_comm, Nat.mul_comm, ← Nat.mul_add_lt_is_or ha,
    Nat.add_comm]

theorem pack4_eq (a b c d : Nat) (ha : a < 2 ^ 16) (hb : b < 2 ^ 16) (hc : c < 2 ^ 16)
    (hd : d < 2 ^ 16) :
    (a % 2 ^ 16 ||| ((b % 2 ^ 16) <<< 16) % 2 ^ 64 ||| ((c % 2 ^ 16) <<< 32) % 2 ^ 64
        ||| ((d % 2 ^ 16) <<< 48) % 2 ^ 64) =
      a + 2 ^ 16 * b + 2 ^ 32 * c + 2 ^ 48 * d := by
  rw [pack2_eq a b ha hb, Nat.mod_eq_of_lt hc, Nat.mod_eq_of_lt hd, Nat.shiftLeft_eq,
    Nat.shiftLeft_eq, Nat.mod_eq_of_lt (by omega), Nat.mod_eq_of_lt (by omega)]
  have h1 : a + 2 ^ 16 * b < 2 ^ 32 := by omega
  rw [Nat.or_comm (a + 2 ^ 16 * b), Nat.mul_comm c, ← Nat.mul_add_lt_is_or h1]
  have h2 : 2 ^ 32 * c + (a + 2 ^ 16 * b) < 2 ^ 48 := by omega
  rw [Nat.or_comm, Nat.mul_comm d, ← Nat.mul_add_lt_is_or h2]
  omega

theorem readClubs_group_pack (a b c d : Nat) (ha : a < 2 ^ 16) (hb : b < 2 ^ 16)
    (hc : c < 2 ^ 16) (hd : d < 2 ^ 16) :
    readClubs_group (a + 2 ^ 16 * b + 2 ^ 32 * c + 2 ^ 48 * d) = [a, b, c, d] := by
  simp only [readClubs_group, Nat.shiftRight_eq_div_pow]
  have e0 : (a + 2 ^ 16 * b + 2 ^ 32 * c + 2 ^ 48 * d) % 2 ^ 16 = a := by omega
  have e1 : (a + 2 ^ 16 * b + 2 ^ 32 * c + 2 ^ 48 * d) / 2 ^ 16 % 2 ^ 16 = b := by omega
  have e2 : (a + 2 ^ 16 * b + 2 ^ 32 * c + 2 ^ 48 * d) / 2 ^ 16 / 2 ^ 16 % 2 ^ 16 = c := by
    omega
  have e3 : (a + 2 ^ 16 * b + 2 ^ 32 * c + 2 ^ 48 * d) / 2 ^ 16 / 2 ^ 16 / 2 ^ 16 % 2 ^ 16
      = d := by omega
  rw [e0, e1, e2, e3]

/-- A double word read back after its two halves have been stored. -/
theorem load64_halves (w : Nat) (hw : w < 2 ^ 64) :
    w % 2 ^ 32 % 2 ^ 32 + 2 ^ 32 * ((w >>> 32) % 2 ^ 32 % 2 ^ 32) = w := by
  rw [Nat.shiftRight_eq_div_pow]
  omega

theorem load64_erased (m : Nat → Nat) (a : Nat) (h0 : m a = 0xFFFFFFFF)
    (h4 : m (a + 4) = 0xFFFFFFFF) : load64 m a = 0xFFFFFFFFFFFFFFFF := by
  simp [load64, h0, h4]

theorem load64_congr (m m' : Nat → Nat) (a : Nat) (h0 : m' a = m a)
    (h4 : m' (a + 4) = m (a + 4)) : load64 m' a = load64 m a := by
  simp [load64, h0, h4]

theorem list12 (X : List Nat) (h : X.length = 12) :
    ∃ x0 x1 x2 x3 x4 x5 x6 x7 x8 x9 x10 x11,
      X = [x0, x1, x2, x3, x4, x5, x6, x7, x8, x9, x10, x11] := by
  match X, h with
  | [x0, x1, x2, x3, x4, x5, x6, x7, x8, x9, x10, x11], _ =>
    exact ⟨x0, x1, x2, x3, x4, x5, x6, x7, x8, x9, x10, x11, rfl⟩

/-- The clubs page is erased by `flash_erase_page(2, 255)` whatever the control register
held. -/
theorem erase_clubs_page (s : Device) (x : Nat) (h1 : 0x080FF800 ≤ x) (h2 : x < 0x08100000) :
    (flash_erase_page s 2 255).mem x = 0xFFFFFFFF := by
  apply erase_mem_inPage
  have : pnbField s.CR ||| 255 % 256 = 255 := by
    rw [show (255 : Nat) % 256 = 255 by norm_num]; exact pnbField_or_255 _
  rw [this]
  simp [inPage, pageBase]
  omega

/-! ## The stores to the control register that a call issues -/

theorem crWrites_append (l₁ l₂ : List BusWrite) :
    crWrites (l₁ ++ l₂) = crWrites l₁ ++ crWrites l₂ := by
  induction l₁ with
  | nil => rfl
  | cons b l ih => cases b <;> simp [crWrites, ih]

@[simp]
theorem unlock_flash_crWrites (s : Device) :
    crWrites (unlock_flash s).log = crWrites s.log := by
  rw [unlock_flash_eq]; simp [crWrites_append, crWrites]

@[simp]
theorem flash_wait_log (s : Device) :
    (flash_wait_for_last_operation s).log = s.log := by
  rw [flash_wait_eq]; split <;> rfl

@[simp]
theorem hw_writeSR_crWrites (s : Device) (v : Nat) :
    crWrites (hw_writeSR s v).log = crWrites s.log := by
  simp [hw_writeSR, crWrites_append, crWrites]

@[simp]
theorem flash_clear_status_flags_crWrites (s : Device) :
    crWrites (flash_clear_status_flags s).log = crWrites s.log := by
  simp [flash_clear_status_flags, flash_clear_pgserr_flag, flash_clear_size_flag,
    flash_clear_pgaerr_flag, flash_clear_wrperr_flag, flash_clear_progerr_flag,
    flash_clear_eop_flag]

@[simp]
theorem hw_writeCR_crWrites (s : Device) (v : Nat) :
    crWrites (hw_writeCR s v).log = crWrites s.log ++ [v] := by
  unfold hw_writeCR
  simp only []
  split
  · simp [crWrites_append, crWrites]
  · split <;> simp [crWrites_append, crWrites]

/-- The six stores of `flash_erase_page` to the control register. -/
theorem erase_crWrites (s : Device) (bank page : Nat) :
    crWrites (flash_erase_page s bank page).log =
      crWrites s.log ++
        [erase_v1 (erase_c0 s.CR (s.SR.testBit 16)),
         erase_v2 (erase_c0 s.CR (s.SR.testBit 16)) page,
         erase_v3 (erase_c0 s.CR (s.SR.testBit 16)) bank page,
         erase_v4 (erase_c0 s.CR (s.SR.testBit 16)) bank page,
         erase_v5 (erase_c0 s.CR (s.SR.testBit 16)) bank page,
         erase_v6 (erase_c0 s.CR (s.SR.testBit 16)) bank page] := by
  by_cases hb : bank % 256 = 1 <;> by_cases hbs : s.SR.testBit 16 = true <;>
    simp [-Nat.testBit_zero, flash_erase_page, lock_flash, hb, hbs, erase_v6, erase_v5,
      erase_v4, erase_v3, erase_v2, erase_v1, erase_c0]

theorem erase_v3_BKER (c0 bank page : Nat) :
    (erase_v3 c0 bank page).testBit 11 = decide (bank % 256 ≠ 1) := by
  by_cases hb : bank % 256 = 1 <;> simp [erase_v3, hb]

theorem lock_flash_LOCK (s : Device) : (lock_flash s).CR.testBit 31 = true := by
  unfold lock_flash
  rw [hw_writeCR_CR]
  by_cases h : s.CR.testBit 31 = true
  · simp [h]
  · simp [h]

/-! ## Records: erase, then program -/

/-- A call of `flash_program_double_word` on a quiet controller, in terms of the double
word at `a`: it is replaced by `d` when it was erased and kept otherwise. -/
theorem program_quiet (s : Device) (a d : Nat)
    (hB : s.SR.testBit 16 = false) (hS : s.CR.testBit 16 = false)
    (hE : s.SR.testBit 0 = false) (hI : s.CR.testBit 24 = false)
    (ha : a % 8 = 0) (ha4 : a + 4 < 2 ^ 32) (hd : d < 2 ^ 64) :
    ∃ s', flash_program_double_word s a d = some s' ∧
      load64 s'.mem a =
        (if load64 s.mem a = 0xFFFFFFFFFFFFFFFF then d else load64 s.mem a) ∧
      (∀ x, x ≠ a → x ≠ a + 4 → s'.mem x = s.mem x) ∧
      s'.SR.testBit 16 = false ∧ s'.SR.testBit 0 = false ∧
      s'.CR.testBit 24 = false ∧ s'.CR.testBit 16 = false ∧
      s'.CR.testBit 11 = s.CR.testBit 11 ∧ pnbField s'.CR = pnbField s.CR ∧
      s'.CR.testBit 31 = true := by
  obtain ⟨s', h, hm, hb, he, hl, hi, hs, h11, -, -, hp⟩ :=
    program_spec s a d hB hS hE hI ha ha4
  refine ⟨s', h, ?_, ?_, hb, he, hi, hs, h11, hp, hl⟩
  · by_cases her : load64 s.mem a = 0xFFFFFFFFFFFFFFFF
    · rw [hm, if_pos her, if_pos her]
      have h1 : ¬ (a = a + 4) := by omega
      simp only [load64, if_true, h1, if_false]
      exact load64_halves d hd
    · rw [hm, if_neg her, if_neg her]
  · intro x hx hx4
    rw [hm]
    split
    · simp only [hx, hx4, if_false]
    · rfl

/-- With the end-of-operation interrupt enabled, `EOP` is up after the erase and the
programming call that follows never returns. -/
theorem erase_program_none (s : Device) (bank page a d : Nat) (hI : s.CR.testBit 24 = true) :
    flash_program_double_word (flash_erase_page s bank page) a d = none :=
  program_none_of_EOP _ _ _ (by rw [erase_SR_EOP]; exact hI)

/-- Erase, then program one double word. -/
theorem erase_program_some (s : Device) (bank page a d : Nat) (hI : s.CR.testBit 24 = false)
    (ha : a % 8 = 0) (ha4 : a + 4 < 2 ^ 32) (hd : d < 2 ^ 64) :
    ∃ s', flash_program_double_word (flash_erase_page s bank page) a d = some s' ∧
      load64 s'.mem a =
        (if load64 (flash_erase_page s bank page).mem a = 0xFFFFFFFFFFFFFFFF then d
          else load64 (flash_erase_page s bank page).mem a) ∧
      (∀ x, x ≠ a → x ≠ a + 4 → s'.mem x = (flash_erase_page s bank page).mem x) ∧
      s'.SR.testBit 16 = false ∧ s'.SR.testBit 0 = false ∧
      s'.CR.testBit 24 = false ∧ s'.CR.testBit 16 = false ∧
      s'.CR.testBit 11 = decide (bank % 256 ≠ 1) ∧
      pnbField s'.CR = pnbField s.CR ||| page % 256 ∧ s'.CR.testBit 31 = true := by
  obtain ⟨s', h, hl, hf, hb, he, hi, hs, h11, hp, hlk⟩ :=
    program_quiet (flash_erase_page s bank page) a d (erase_SR_BSY _ _ _)
      (erase_CR_STRT _ _ _) (by rw [erase_SR_EOP]; exact hI)
      (by rw [erase_CR_EOPIE]; exact hI) ha ha4 hd
  exact ⟨s', h, hl, hf, hb, he, hi, hs, by rw [h11, erase_CR_BKER],
    by rw [hp, erase_CR_pnb], hlk⟩

theorem or_or_self (a b : Nat) : a ||| b ||| b = a ||| b := by
  apply Nat.eq_of_testBit_eq
  intro i
  simp only [Nat.testBit_or]
  cases a.testBit i <;> cases b.testBit i <;> rfl

/-- Erase and program a one-word record twice: the record's double word ends as after
the first round. -/
theorem write_twice (s : Device) (page a w : Nat) (ha : a % 8 = 0) (ha4 : a + 4 < 2 ^ 32)
    (hw : w < 2 ^ 64) (hne : w ≠ 0xFFFFFFFFFFFFFFFF)
    (hpage : ∀ P, inPage true P (a + 4) = inPage true P a) :
    (flash_program_double_word (flash_erase_page s 2 page) a w).bind (fun s1 =>
        (flash_program_double_word (flash_erase_page s1 2 page) a w).map
          (fun s2 => load64 s2.mem a)) =
      (flash_program_double_word (flash_erase_page s 2 page) a w).map
        (fun s1 => load64 s1.mem a) := by
  by_cases hI : s.CR.testBit 24 = true
  · rw [erase_program_none s 2 page a w hI]; rfl
  · have hI' : s.CR.testBit 24 = false := by simpa using hI
    obtain ⟨s1, h1, l1, -, -, -, i1, st1, -, p1, -⟩ :=
      erase_program_some s 2 page a w hI' ha ha4 hw
    obtain ⟨s2, h2, l2, -⟩ := erase_program_some s1 2 page a w i1 ha ha4 hw
    rw [h1, Option.some_bind, h2, Option.map_some', Option.map_some', l2]
    congr 1
    have hm2 := erase_mem_of_quiet s1 2 page (Or.inr st1)
    rw [p1, or_or_self] at hm2
    have hd2 : decide (2 % 256 ≠ 1) = true := by decide
    rw [hd2] at hm2
    cases hin : inPage true (pnbField s.CR ||| page % 256) a
    · have e0 : (flash_erase_page s1 2 page).mem a = s1.mem a := by
        rw [hm2]; simp only [hw_erase, hin, Bool.false_eq_true, if_false]
      have e4 : (flash_erase_page s1 2 page).mem (a + 4) = s1.mem (a + 4) := by
        rw [hm2]; simp only [hw_erase, hpage, hin, Bool.false_eq_true, if_false]
      rw [load64_congr _ _ _ e0 e4]
      have hne1 : load64 s1.mem a ≠ 0xFFFFFFFFFFFFFFFF := by
        rw [l1]
        split
        · exact hne
        · assumption
      rw [if_neg hne1]
    · have e0 : (flash_erase_page s1 2 page).mem a = 0xFFFFFFFF := by
        rw [hm2]; simp only [hw_erase, hin, if_true]
      have e4 : (flash_erase_page s1 2 page).mem (a + 4) = 0xFFFFFFFF := by
        rw [hm2]; simp only [hw_erase, hpage, hin, if_true]
      rw [if_pos (load64_erased _ _ e0 e4), l1]
      have f0 : (flash_erase_page s 2 page).mem a = 0xFFFFFFFF :=
        erase_mem_inPage s 2 page a (by rw [hd2]; exact hin)
      have f4 : (flash_erase_page s 2 page).mem (a + 4) = 0xFFFFFFFF :=
        erase_mem_inPage s 2 page (a + 4) (by rw [hd2, hpage]; exact hin)
      rw [if_pos (load64_erased _ _ f0 f4)]

/-! ## The clubs record -/

theorem writeClubs_word_lt (X : List Nat) (i : Nat) : writeClubs_word X i < 2 ^ 64 := by
  unfold writeClubs_word
  have h0 : X[i]! % 2 ^ 16 < 2 ^ 64 :=
    lt_of_lt_of_le (Nat.mod_lt _ (by norm_num)) (by norm_num)
  exact Nat.or_lt_two_pow
    (Nat.or_lt_two_pow (Nat.or_lt_two_pow h0 (Nat.mod_lt _ (by norm_num)))
      (Nat.mod_lt _ (by norm_num)))
    (Nat.mod_lt _ (by norm_num))

theorem writeClubs_none (s : Device) (X : List Nat) (hI : s.CR.testBit 24 = true) :
    writeClubs s X = none := by
  rw [writeClubs_unroll, erase_program_none s 2 255 _ _ hI]
  rfl

/-- When `writeClubs` returns, the three double words of the record hold the three packed
words. -/
theorem writeClubs_some (s : Device) (X : List Nat) (hI : s.CR.testBit 24 = false) :
    ∃ s', writeClubs s X = some s' ∧
      clubsCells s' = [writeClubs_word X 0, writeClubs_word X 4, writeClubs_word X 8] ∧
      s'.CR.testBit 24 = false ∧ s'.CR.testBit 31 = true := by
  have hm1 := erase_clubs_page s
  obtain ⟨s2, h2, l2, f2, bs2, e2, i2, st2, -⟩ :=
    erase_program_some s 2 255 CLUB_ADDRESS (writeClubs_word X 0) hI (by decide) (by decide)
      (writeClubs_word_lt X 0)
  rw [if_pos (load64_erased _ _ (hm1 _ (by decide) (by decide))
    (hm1 _ (by decide) (by decide)))] at l2
  have hu := writeClubs_unroll s X
  generalize flash_erase_page s 2 255 = s1 at h2 f2 hm1 hu
  obtain ⟨s3, h3, l3, f3, bs3, e3, i3, st3, -⟩ :=
    program_quiet s2 (CLUB_ADDRESS + 8) (writeClubs_word X 4)
      bs2 st2 e2 i2 (by decide) (by decide) (writeClubs_word_lt X 4)
  rw [if_pos (load64_erased _ _
      (by rw [f2 _ (by decide) (by decide)]; exact hm1 _ (by decide) (by decide))
      (by rw [f2 _ (by decide) (by decide)]; exact hm1 _ (by decide) (by decide)))] at l3
  obtain ⟨s4, h4, l4, f4, -, -, i4, -, -, -, k4⟩ :=
    program_quiet s3 (CLUB_ADDRESS + 16) (writeClubs_word X 8)
      bs3 st3 e3 i3 (by decide) (by decide) (writeClubs_word_lt X 8)
  rw [if_pos (load64_erased _ _
      (by rw [f3 _ (by decide) (by decide), f2 _ (by decide) (by decide)]
          exact hm1 _ (by decide) (by decide))
      (by rw [f3 _ (by decide) (by decide), f2 _ (by decide) (by decide)]
          exact hm1 _ (by decide) (by decide)))] at l4
  have r0 : load64 s4.mem CLUB_ADDRESS = writeClubs_word X 0 := by
    rw [← l2]
    apply load64_congr
    · rw [f4 _ (by decide) (by decide), f3 _ (by decide) (by decide)]
    · rw [f4 _ (by decide) (by decide), f3 _ (by decide) (by decide)]
  have r1 : load64 s4.mem (CLUB_ADDRESS + 8) = writeClubs_word X 4 := by
    rw [← l3]
    apply load64_congr
    · rw [f4 _ (by decide) (by decide)]
    · rw [f4 _ (by decide) (by decide)]
  refine ⟨s4, ?_, ?_, i4, k4⟩
  · rw [hu, h2, Option.some_bind, h3, Option.some_bind, h4]
  · rw [clubsCells, r0, r1, l4]

theorem readClubs_of_cells (s : Device) :
    (readClubs s).2 = ((clubsCells s).map readClubs_group).flatten := by
  rw [readClubs_unroll]
  simp [clubsCells]

/-! ## The settings and position records -/

theorem writeSettings_word_lt (X : List Nat) : writeSettings_word X < 2 ^ 32 := by
  unfold writeSettings_word
  have h0 : X[0]! % 2 ^ 16 < 2 ^ 32 :=
    lt_of_lt_of_le (Nat.mod_lt _ (by norm_num)) (by norm_num)
  have h1 : (X[1]! % 2 ^ 16) <<< 16 % 2 ^ 64 < 2 ^ 32 := by
    rw [Nat.shiftLeft_eq]
    have : X[1]! % 2 ^ 16 < 2 ^ 16 := Nat.mod_lt _ (by norm_num)
    omega
  exact Nat.or_lt_two_pow h0 h1

theorem settings_inPage (P : Nat) :
    inPage true P (SETTINGS_ADDRESS + 4) = inPage true P SETTINGS_ADDRESS := by
  simp only [inPage, pageBase, SETTINGS_ADDRESS, if_true]
  by_cases hP : P = 0
  · subst hP; decide
  · have h1 : ¬ (0x08000000 + 0x80000 + P * 0x800 ≤ 0x08080000 + 4) := by omega
    have h2 : ¬ (0x08000000 + 0x80000 + P * 0x800 ≤ 0x08080000) := by omega
    simp [h1, h2]

theorem position_inPage (P : Nat) :
    inPage true P (POSITION_ADDRESS + 4) = inPage true P POSITION_ADDRESS := by
  simp only [inPage, pageBase, POSITION_ADDRESS, if_true]
  by_cases hP : P = 1
  · subst hP; decide
  · by_cases h0 : P = 0
    · subst h0; decide
    · have h1 : ¬ (0x08000000 + 0x80000 + P * 0x800 ≤ 0x08080800 + 4) := by omega
      have h2 : ¬ (0x08000000 + 0x80000 + P * 0x800 ≤ 0x08080800) := by omega
      simp [h1, h2]

theorem readPosition_eq (s : Device) :
    readPosition s =
      (s, if 1 ≤ positionCell s % 2 ^ 16 ∧ positionCell s % 2 ^ 16 ≤ 12 then
            positionCell s % 2 ^ 16 else 1) := by
  simp only [readPosition, hw_load64, positionCell]
  congr 1
  by_cases h : load64 s.mem POSITION_ADDRESS % 2 ^ 16 > 12 ∨
      load64 s.mem POSITION_ADDRESS % 2 ^ 16 = 0
  · rw [if_pos h, if_neg (by omega)]
  · rw [if_neg h, if_pos (by omega)]

theorem program_LOCK (s : Device) (a d : Nat) :
    (flash_program_double_word s a d).all (fun s' => s'.CR.testBit 31) = true := by
  unfold flash_program_double_word
  simp only []
  split
  · rfl
  · simp only [Option.all, lock_flash_LOCK]

/-- C1. Clubs round trip: for every 12-element array `X` of 16-bit values and every
initial device (flash content and controller state), `writeClubs(X)` followed by
`readClubs` delivers `X`.  The busy polls always end; the call returns unless the
end-of-operation interrupt is enabled on entry, in which case the poll on `EOP` never
ends. -/
theorem clubs_round_trip (s : Device) (X : List Nat) (hlen : X.length = 12)
    (h16 : ∀ x ∈ X, x < 2 ^ 16) :
    (writeClubs s X).map (fun s' => (readClubs s').2) =
      if s.CR.testBit 24 then none else some X := by
  by_cases hI : s.CR.testBit 24 = true
  · rw [writeClubs_none s X hI, if_pos hI]; rfl
  · have hI' : s.CR.testBit 24 = false := by simpa using hI
    obtain ⟨s', h, hc, -⟩ := writeClubs_some s X hI'
    rw [h, if_neg hI, Option.map_some', readClubs_of_cells, hc]
    obtain ⟨x0, x1, x2, x3, x4, x5, x6, x7, x8, x9, x10, x11, rfl⟩ := list12 X hlen
    simp only [List.mem_cons, List.mem_singleton, forall_eq_or_imp, forall_eq,
      List.not_mem_nil, false_implies, implies_true, and_true] at h16
    obtain ⟨b0, b1, b2, b3, b4, b5, b6, b7, b8, b9, b10, b11⟩ := h16
    have w0 : writeClubs_word [x0, x1, x2, x3, x4, x5, x6, x7, x8, x9, x10, x11] 0
        = x0 + 2 ^ 16 * x1 + 2 ^ 32 * x2 + 2 ^ 48 * x3 := pack4_eq x0 x1 x2 x3 b0 b1 b2 b3
    have w4 : writeClubs_word [x0, x1, x2, x3, x4, x5, x6, x7, x8, x9, x10, x11] 4
        = x4 + 2 ^ 16 * x5 + 2 ^ 32 * x6 + 2 ^ 48 * x7 := pack4_eq x4 x5 x6 x7 b4 b5 b6 b7
    have w8 : writeClubs_word [x0, x1, x2, x3, x4, x5, x6, x7, x8, x9, x10, x11] 8
        = x8 + 2 ^ 16 * x9 + 2 ^ 32 * x10 + 2 ^ 48 * x11 :=
      pack4_eq x8 x9 x10 x11 b8 b9 b10 b11
    rw [w0, w4, w8]
    simp only [List.map, List.flatten, readClubs_group_pack _ _ _ _ b0 b1 b2 b3,
      readClubs_group_pack _ _ _ _ b4 b5 b6 b7, readClubs_group_pack _ _ _ _ b8 b9 b10 b11]
    rfl

/-- Witness of C1 on a controller left with page index 1 over a flash array full of old
data. -/
theorem clubs_round_trip_witness :
    (writeClubs usedDevice exampleClubs).map (fun s' => (readClubs s').2)
      = some exampleClubs :=
  (clubs_round_trip usedDevice exampleClubs (by decide) (by decide)).trans (by decide)

/-- C2 (the code breaks it). After `writeSettings [1, 2]` and `writeClubs` on a device
fresh from reset, `writeSettings [7, 9]` followed by `readSettings` delivers `[1, 2]`:
the page index 255 left in the control register by `writeClubs` is or-ed with 0, page
255 is erased instead of page 0, and the settings double word, not erased, rejects the
new value. -/
theorem settings_write_lost_after_writeClubs :
    ((writeSettings resetDevice [1, 2]).bind (fun s => writeClubs s exampleClubs)).bind
        (fun s => (writeSettings s [7, 9]).map (fun s' => (readSettings s').2))
      = some [1, 2] := by
  decide!

/-- C3. Position write-then-read: on a controller whose page-index field is zero and
whose end-of-operation interrupt is off (the reset value `0xC0000000` of the control
register has both), over any flash content, `writePosition(p)` returns and `readPosition`
then gives `p` when `1 ≤ p ≤ 12` and `1` otherwise. -/
theorem position_write_then_read (s : Device) (p : Nat) (hp : p < 2 ^ 16)
    (hpnb : pnbField s.CR = 0) (hI : s.CR.testBit 24 = false) :
    (writePosition s p).map (fun s' => (readPosition s').2) =
      some (if 1 ≤ p ∧ p ≤ 12 then p else 1) := by
  obtain ⟨s', h, hl, -⟩ :=
    erase_program_some s 2 1 POSITION_ADDRESS (p % 2 ^ 16) hI (by decide) (by decide)
      (lt_of_lt_of_le (Nat.mod_lt _ (by norm_num)) (by norm_num))
  have hin : ∀ x, 0x08080800 ≤ x → x < 0x08081000 →
      (flash_erase_page s 2 1).mem x = 0xFFFFFFFF := by
    intro x h1 h2
    apply erase_mem_inPage
    rw [hpnb]
    simp [inPage, pageBase]
    omega
  rw [if_pos (load64_erased _ _ (hin _ (by decide) (by decide))
    (hin _ (by decide) (by decide)))] at hl
  have hw : writePosition s p = some s' := h
  rw [hw, Option.map_some', readPosition_eq]
  simp only [positionCell, hl, Nat.mod_mod, Nat.mod_eq_of_lt hp]

/-- Witness of C3 on the reset controller over a flash array full of old data: 7 gives
7, 0 gives 1 and 13 gives 1. -/
theorem position_write_then_read_witness :
    (writePosition staleDevice 7).map (fun s' => (readPosition s').2) = some 7 ∧
    (writePosition staleDevice 0).map (fun s' => (readPosition s').2) = some 1 ∧
    (writePosition staleDevice 13).map (fun s' => (readPosition s').2) = some 1 :=
  ⟨position_write_then_read staleDevice 7 (by decide) (by decide) (by decide),
   position_write_then_read staleDevice 0 (by decide) (by decide) (by decide),
   position_write_then_read staleDevice 13 (by decide) (by decide) (by decide)⟩

theorem positionCell_with (s : Device) (c : Nat) :
    positionCell (withPositionCell s c) = c % 2 ^ 64 := by
  simp only [positionCell, withPositionCell, load64, POSITION_ADDRESS, Nat.shiftRight_eq_div_pow]
  norm_num
  omega

/-- C4. Position validation on read: `readPosition` returns the low 16 bits `v` of the
position double word when `1 ≤ v ≤ 12` and `1` otherwise; the result lies in `[1, 12]`;
for every 64-bit content `c` of the double word the result is that of `c mod 2 ^ 16`, so
bits 16..63 play no part; an erased double word and a stored 0 both read as 1. -/
theorem readPosition_validates (s : Device) (c : Nat) :
    (readPosition s).2 =
        (if 1 ≤ positionCell s % 2 ^ 16 ∧ positionCell s % 2 ^ 16 ≤ 12 then
          positionCell s % 2 ^ 16 else 1) ∧
      1 ≤ (readPosition s).2 ∧ (readPosition s).2 ≤ 12 ∧
      (readPosition (withPositionCell s c)).2 =
        (if 1 ≤ c % 2 ^ 16 ∧ c % 2 ^ 16 ≤ 12 then c % 2 ^ 16 else 1) ∧
      (readPosition (withPositionCell s c)).2 =
        (readPosition (withPositionCell s (c % 2 ^ 16))).2 ∧
      (readPosition (withPositionCell s 0xFFFFFFFFFFFFFFFF)).2 = 1 ∧
      (readPosition (withPositionCell s 0)).2 = 1 := by
  have key : ∀ c : Nat, (readPosition (withPositionCell s c)).2 =
      (if 1 ≤ c % 2 ^ 16 ∧ c % 2 ^ 16 ≤ 12 then c % 2 ^ 16 else 1) := by
    intro c
    rw [readPosition_eq, positionCell_with]
    have : c % 2 ^ 64 % 2 ^ 16 = c % 2 ^ 16 := by omega
    simp only [this]
  refine ⟨by rw [readPosition_eq], ?_, ?_, key c, ?_, ?_, ?_⟩
  · rw [readPosition_eq]
    simp only []
    split <;> omega
  · rw [readPosition_eq]
    simp only []
    split <;> omega
  · rw [key, key, Nat.mod_mod]
  · rw [key]; decide
  · rw [key]; decide

theorem or_shift_eq (a b c d : Nat) (ha : a < 2 ^ 16) (hb : b < 2 ^ 16) (hc : c < 2 ^ 16)
    (hd : d < 2 ^ 16) :
    a ||| b <<< 16 ||| c <<< 32 ||| d <<< 48 = a + 2 ^ 16 * b + 2 ^ 32 * c + 2 ^ 48 * d := by
  have h := pack4_eq a b c d ha hb hc hd
  rw [Nat.mod_eq_of_lt ha, Nat.mod_eq_of_lt hb, Nat.mod_eq_of_lt hc, Nat.mod_eq_of_lt hd,
    Nat.mod_eq_of_lt (by rw [Nat.shiftLeft_eq]; omega),
    Nat.mod_eq_of_lt (by rw [Nat.shiftLeft_eq]; omega),
    Nat.mod_eq_of_lt (by rw [Nat.shiftLeft_eq]; omega)] at h
  exact h

theorem getElem!_append_length (pre l : List Nat) (k : Nat) :
    (pre ++ l)[pre.length + k]! = l[k]! := by
  induction pre with
  | nil => simp
  | cons x pre ih =>
    have h : (x :: pre).length + k = (pre.length + k) + 1 := by simp; omega
    rw [h, List.cons_append, List.getElem!_cons_succ, ih]

theorem writeClubs_word_append (pre post : List Nat) (a b c d : Nat) :
    writeClubs_word (pre ++ a :: b :: c :: d :: post) pre.length =
      writeClubs_word [a, b, c, d] 0 := by
  have h0 := getElem!_append_length pre (a :: b :: c :: d :: post) 0
  have h1 := getElem!_append_length pre (a :: b :: c :: d :: post) 1
  have h2 := getElem!_append_length pre (a :: b :: c :: d :: post) 2
  have h3 := getElem!_append_length pre (a :: b :: c :: d :: post) 3
  rw [Nat.add_zero] at h0
  simp only [writeClubs_word, h0, h1, h2, h3, Nat.zero_add, List.getElem!_cons_succ,
    List.getElem!_cons_zero]

/-- C5. Packing law: for all 16-bit `a`, `b`, `c`, `d`, wherever the group stands in the
array, the double word `writeClubs` builds for it is `a | b<<16 | c<<32 | d<<48`, with `a`
in bits 0..15 and `d` in bits 48..63, and the four values `readClubs` takes out of that
double word are `[a, b, c, d]`. -/
theorem packing_law (pre post : List Nat) (a b c d : Nat) (ha : a < 2 ^ 16)
    (hb : b < 2 ^ 16) (hc : c < 2 ^ 16) (hd : d < 2 ^ 16) :
    writeClubs_word (pre ++ a :: b :: c :: d :: post) pre.length =
        a ||| b <<< 16 ||| c <<< 32 ||| d <<< 48 ∧
      (a ||| b <<< 16 ||| c <<< 32 ||| d <<< 48) % 2 ^ 16 = a ∧
      (a ||| b <<< 16 ||| c <<< 32 ||| d <<< 48) >>> 48 = d ∧
      readClubs_group (writeClubs_word (pre ++ a :: b :: c :: d :: post) pre.length) =
        [a, b, c, d] := by
  have hw : writeClubs_word (pre ++ a :: b :: c :: d :: post) pre.length =
      a + 2 ^ 16 * b + 2 ^ 32 * c + 2 ^ 48 * d := by
    rw [writeClubs_word_append]
    exact pack4_eq a b c d ha hb hc hd
  rw [or_shift_eq a b c d ha hb hc hd, hw, Nat.shiftRight_eq_div_pow]
  exact ⟨rfl, by omega, by omega, readClubs_group_pack a b c d ha hb hc hd⟩

/-- Witness of C5: the second group of the example table. -/
theorem packing_law_witness :
    writeClubs_word exampleClubs 4 = 5 ||| 6 <<< 16 ||| 7 <<< 32 ||| 8 <<< 48 ∧
      (5 ||| 6 <<< 16 ||| 7 <<< 32 ||| 8 <<< 48) % 2 ^ 16 = 5 ∧
      (5 ||| 6 <<< 16 ||| 7 <<< 32 ||| 8 <<< 48) >>> 48 = 8 ∧
      readClubs_group (writeClubs_word exampleClubs 4) = [5, 6, 7, 8] :=
  packing_law [1, 2, 3, 4] [9, 10, 11, 12] 5 6 7 8 (by decide) (by decide) (by decide)
    (by decide)

/-- C6 (the code breaks it). On a device fresh from reset, `writeSettings` after
`writeClubs` leaves the clubs record erased (every value reads `0xFFFF`), and
`writeSettings` after `writePosition(5)` leaves the position record erased (it reads as
the default 1): `flash_erase_page` ors the page index into the field left by the write
before, so page 255, respectively page 1, is erased instead of page 0. -/
theorem writeSettings_erases_other_records :
    (writeClubs resetDevice exampleClubs).bind (fun s =>
        (writeSettings s [7, 9]).map (fun s' => ((readClubs s).2, (readClubs s').2)))
      = some (exampleClubs, List.replicate 12 0xFFFF) ∧
    (writePosition resetDevice 5).bind (fun s =>
        (writeSettings s [7, 9]).map (fun s' =>
          ((readPosition s).2, positionCell s, (readPosition s').2, positionCell s')))
      = some (5, 5, 1, 0xFFFFFFFFFFFFFFFF) := by
  constructor <;> decide!

theorem twice_map {α β γ : Type} (o : Option α) (f : α → Option α) (h : α → β)
    (g : β → γ)
    (e : o.bind (fun s1 => (f s1).map h) = o.map h) :
    o.bind (fun s1 => (f s1).map (fun s2 => g (h s2))) = o.map (fun s1 => g (h s1)) := by
  cases o with
  | none => rfl
  | some s1 =>
    simp only [Option.some_bind, Option.map_some'] at e ⊢
    cases hf : f s1 with
    | none => rw [hf] at e; simp at e
    | some s2 =>
      rw [hf] at e
      simp only [Option.map_some', Option.some.injEq] at e ⊢
      rw [e]

theorem readSettings_of_cell (s : Device) :
    (readSettings s).2 = [settingsCell s % 2 ^ 16, (settingsCell s >>> 16) % 2 ^ 16] := by
  rw [readSettings_unroll]; rfl

/-- C7. Idempotence of writes: for each record, every value and every initial device,
writing twice in a row leaves the record's double words, and so what the read delivers,
as writing once does (and the second write returns whenever the first does). -/
theorem write_idempotent (s : Device) (X : List Nat) (p : Nat) :
    (writeClubs s X).bind (fun s1 =>
        (writeClubs s1 X).map (fun s2 => (clubsCells s2, (readClubs s2).2))) =
      (writeClubs s X).map (fun s1 => (clubsCells s1, (readClubs s1).2)) ∧
    (writeSettings s X).bind (fun s1 =>
        (writeSettings s1 X).map (fun s2 => (settingsCell s2, (readSettings s2).2))) =
      (writeSettings s X).map (fun s1 => (settingsCell s1, (readSettings s1).2)) ∧
    (writePosition s p).bind (fun s1 =>
        (writePosition s1 p).map (fun s2 => (positionCell s2, (readPosition s2).2))) =
      (writePosition s p).map (fun s1 => (positionCell s1, (readPosition s1).2)) := by
  refine ⟨?_, ?_, ?_⟩
  · by_cases hI : s.CR.testBit 24 = true
    · rw [writeClubs_none s X hI]; rfl
    · have hI' : s.CR.testBit 24 = false := by simpa using hI
      obtain ⟨s1, h1, c1, i1, -⟩ := writeClubs_some s X hI'
      obtain ⟨s2, h2, c2, -⟩ := writeClubs_some s1 X i1
      rw [h1, Option.some_bind, h2, Option.map_some', Option.map_some', readClubs_of_cells,
        readClubs_of_cells, c1, c2]
  · have hw : writeSettings_word X < 2 ^ 64 :=
      lt_of_lt_of_le (writeSettings_word_lt X) (by norm_num)
    have hne : writeSettings_word X ≠ 0xFFFFFFFFFFFFFFFF := by
      have := writeSettings_word_lt X
      omega
    have e := write_twice s 0 SETTINGS_ADDRESS (writeSettings_word X) (by decide) (by decide)
      hw hne settings_inPage
    have e' := twice_map _ (fun s1 => flash_program_double_word (flash_erase_page s1 2 0)
      SETTINGS_ADDRESS (writeSettings_word X)) _
      (fun c => (c, [c % 2 ^ 16, (c >>> 16) % 2 ^ 16])) e
    simp only [readSettings_of_cell, settingsCell]
    exact e'
  · have hw : p % 2 ^ 16 < 2 ^ 64 :=
      lt_of_lt_of_le (Nat.mod_lt _ (by norm_num)) (by norm_num)
    have hne : p % 2 ^ 16 ≠ 0xFFFFFFFFFFFFFFFF := by
      have : p % 2 ^ 16 < 2 ^ 16 := Nat.mod_lt _ (by norm_num)
      omega
    have e := write_twice s 1 POSITION_ADDRESS (p % 2 ^ 16) (by decide) (by decide)
      hw hne position_inPage
    have e' := twice_map _ (fun s1 => flash_program_double_word (flash_erase_page s1 2 1)
      POSITION_ADDRESS (p % 2 ^ 16)) _
      (fun c => (c, if 1 ≤ c % 2 ^ 16 ∧ c % 2 ^ 16 ≤ 12 then c % 2 ^ 16 else 1)) e
    simp only [readPosition_eq, positionCell]
    exact e'

/-- C8. Bank-select asymmetry: for every initial device and every page, after
`flash_erase_page(bank, page)` the bank-select bit of the control register is clear when
the 8-bit `bank` is 1 and set for every other value; of the six stores the call issues to
the control register, the third (the bank-select branch) puts the bit at that value and
the fourth, which sets the start bit, carries it. -/
theorem bank_select_asymmetry (s : Device) (bank page : Nat) :
    (flash_erase_page s bank page).CR.testBit 11 = decide (bank % 256 ≠ 1) ∧
    crWrites (flash_erase_page s bank page).log =
      crWrites s.log ++
        [erase_v1 (erase_c0 s.CR (s.SR.testBit 16)),
         erase_v2 (erase_c0 s.CR (s.SR.testBit 16)) page,
         erase_v3 (erase_c0 s.CR (s.SR.testBit 16)) bank page,
         erase_v4 (erase_c0 s.CR (s.SR.testBit 16)) bank page,
         erase_v5 (erase_c0 s.CR (s.SR.testBit 16)) bank page,
         erase_v6 (erase_c0 s.CR (s.SR.testBit 16)) bank page] ∧
    (erase_v3 (erase_c0 s.CR (s.SR.testBit 16)) bank page).testBit 11
      = decide (bank % 256 ≠ 1) ∧
    (erase_v4 (erase_c0 s.CR (s.SR.testBit 16)) bank page).testBit 16 = true ∧
    (erase_v4 (erase_c0 s.CR (s.SR.testBit 16)) bank page).testBit 11
      = decide (bank % 256 ≠ 1) := by
  exact ⟨erase_CR_BKER s bank page, erase_crWrites s bank page, erase_v3_BKER _ _ _,
    erase_v4_STRT _ _ _, erase_v4_BKER _ _ _⟩

theorem bind_all {α : Type} (o : Option α) (f : α → Option α) (q : α → Bool)
    (h : ∀ a, (f a).all q = true) : (o.bind f).all q = true := by
  cases o with
  | none => rfl
  | some a => exact h a

/-- C9. Re-lock invariant: `LOCK` is set when `flash_erase_page` returns and whenever
`flash_program_double_word`, `writeClubs`, `writeSettings` or `writePosition` returns;
`unlock_flash` clears it, and no other step of the sequencer does: the waits, the status
stores and the flash stores leave the bit alone, and a store to the control register can
only set it. -/
theorem relock_invariant (s : Device) (bank page a d v : Nat) (X : List Nat) :
    (flash_erase_page s bank page).CR.testBit 31 = true ∧
    (flash_program_double_word s a d).all (fun s' => s'.CR.testBit 31) = true ∧
    (writeClubs s X).all (fun s' => s'.CR.testBit 31) = true ∧
    (writeSettings s X).all (fun s' => s'.CR.testBit 31) = true ∧
    (writePosition s d).all (fun s' => s'.CR.testBit 31) = true ∧
    (lock_flash s).CR.testBit 31 = true ∧
    (unlock_flash s).CR.testBit 31 = false ∧
    (flash_wait_for_last_operation s).CR.testBit 31 = s.CR.testBit 31 ∧
    (flash_clear_status_flags s).CR = s.CR ∧
    (hw_writeSR s v).CR = s.CR ∧
    (hw_store32 s a v).CR = s.CR ∧
    (hw_writeCR s v).CR.testBit 31 = (s.CR.testBit 31 || v.testBit 31) := by
  refine ⟨erase_CR_LOCK s bank page, program_LOCK s a d, ?_, program_LOCK _ _ _,
    program_LOCK _ _ _, lock_flash_LOCK s, by simp, ?_, rfl, rfl, hw_store32_CR s a v, ?_⟩
  · rw [writeClubs_unroll]
    exact bind_all _ _ _ (fun s1 => bind_all _ _ _ (fun s2 => program_LOCK _ _ _))
  · rw [flash_wait_CR]; split <;> simp
  · rw [hw_writeCR_CR]
    cases h : s.CR.testBit 31 <;> simp [h]

/-- C10. Reads are pure loads: `readClubs`, `readSettings` and `readPosition` return the
device they were given, flash array and registers alike; what they deliver is a function
of the record's own double words; and `readPosition`, which does not rewrite the double
word when it substitutes 1, delivers the same on a second call. -/
theorem reads_are_pure (s : Device) :
    (readClubs s).1 = s ∧ (readSettings s).1 = s ∧ (readPosition s).1 = s ∧
    (readClubs s).2 = ((clubsCells s).map readClubs_group).flatten ∧
    (readSettings s).2 = [settingsCell s % 2 ^ 16, (settingsCell s >>> 16) % 2 ^ 16] ∧
    (readPosition s).2 =
      (if 1 ≤ positionCell s % 2 ^ 16 ∧ positionCell s % 2 ^ 16 ≤ 12 then
        positionCell s % 2 ^ 16 else 1) ∧
    positionCell (readPosition s).1 = positionCell s ∧
    readPosition (readPosition s).1 = readPosition s := by
  have hp : (readPosition s).1 = s := by rw [readPosition_eq]
  refine ⟨by rw [readClubs_unroll], by rw [readSettings_unroll], hp, readClubs_of_cells s,
    readSettings_of_cell s, by rw [readPosition_eq], by rw [hp], by rw [hp]⟩

/-! ## The stores a call issues, in order -/

theorem hw_writeCR_log (s : Device) (v : Nat) :
    (hw_writeCR s v).log = s.log ++ [BusWrite.cr v] := by
  unfold hw_writeCR
  simp only []
  split
  · rfl
  · split <;> rfl

theorem hw_writeSR_log (s : Device) (v : Nat) :
    (hw_writeSR s v).log = s.log ++ [BusWrite.sr v] := rfl

theorem hw_store32_log (s : Device) (a v : Nat) :
    (hw_store32 s a v).log = s.log ++ [BusWrite.mmio32 a v] := by
  unfold hw_store32
  simp only []
  split
  · rfl
  · split
    · split <;> rfl
    · split <;> rfl

theorem unlock_flash_log (s : Device) :
    (unlock_flash s).log =
      s.log ++ [BusWrite.keyr 0x45670123, BusWrite.keyr 0xCDEF89AB] := by
  rw [unlock_flash_eq]

@[simp]
theorem targets_unlock (s : Device) :
    targets (unlock_flash s) = targets s ++ [Target.keyr, Target.keyr] := by
  simp [targets, unlock_flash_log, BusWrite.target]

@[simp]
theorem targets_wait (s : Device) : targets (flash_wait_for_last_operation s) = targets s := by
  simp [targets]

@[simp]
theorem targets_writeCR (s : Device) (v : Nat) :
    targets (hw_writeCR s v) = targets s ++ [Target.cr] := by
  simp [targets, hw_writeCR_log, BusWrite.target]

@[simp]
theorem targets_writeSR (s : Device) (v : Nat) :
    targets (hw_writeSR s v) = targets s ++ [Target.sr] := by
  simp [targets, hw_writeSR_log, BusWrite.target]

@[simp]
theorem targets_store32 (s : Device) (a v : Nat) :
    targets (hw_store32 s a v) = targets s ++ [Target.flash] := by
  simp [targets, hw_store32_log, BusWrite.target]

@[simp]
theorem targets_clear (s : Device) :
    targets (flash_clear_status_flags s) =
      targets s ++ [Target.sr, Target.sr, Target.sr, Target.sr, Target.sr, Target.sr] := by
  simp [flash_clear_status_flags, flash_clear_pgserr_flag, flash_clear_size_flag,
    flash_clear_pgaerr_flag, flash_clear_wrperr_flag, flash_clear_progerr_flag,
    flash_clear_eop_flag]

theorem targets_erase (s : Device) (bank page : Nat) :
    targets (flash_erase_page s bank page) =
      targets s ++ [Target.keyr, Target.keyr,
        Target.sr, Target.sr, Target.sr, Target.sr, Target.sr, Target.sr,
        Target.cr, Target.cr, Target.cr, Target.cr, Target.cr, Target.cr] := by
  by_cases hb : bank % 256 = 1 <;> simp [flash_erase_page, lock_flash, hb]

theorem srWrites_append (l₁ l₂ : List BusWrite) :
    srWrites (l₁ ++ l₂) = srWrites l₁ ++ srWrites l₂ := by
  induction l₁ with
  | nil => rfl
  | cons b l ih => cases b <;> simp [srWrites, ih]

theorem flashWrites_append (l₁ l₂ : List BusWrite) :
    flashWrites (l₁ ++ l₂) = flashWrites l₁ ++ flashWrites l₂ := by
  induction l₁ with
  | nil => rfl
  | cons b l ih => cases b <;> simp [flashWrites, ih]

/-- C13 (as stated, the code does not do this). On the device fresh from reset, from
the first store of `flash_erase_page` to the control register on there are only stores
to the control register, so no flag is cleared once the erase has been set up; and
before the store of `flash_program_double_word` that sets the program-mode bit there are
only the two key stores, so no flag is cleared before the programming starts. -/
theorem status_flags_not_cleared_around :
    targets (flash_erase_page resetDevice 2 0) =
      [Target.keyr, Target.keyr,
       Target.sr, Target.sr, Target.sr, Target.sr, Target.sr, Target.sr,
       Target.cr, Target.cr, Target.cr, Target.cr, Target.cr, Target.cr] ∧
    (targets (flash_erase_page resetDevice 2 0)).dropWhile (fun t => decide (t ≠ Target.cr)) =
      [Target.cr, Target.cr, Target.cr, Target.cr, Target.cr, Target.cr] ∧
    (flash_program_double_word resetDevice SETTINGS_ADDRESS 7).map targets =
      some [Target.keyr, Target.keyr, Target.cr, Target.flash, Target.flash,
        Target.sr, Target.sr, Target.sr, Target.sr, Target.sr, Target.sr, Target.sr,
        Target.cr, Target.cr] ∧
    (flash_program_double_word resetDevice SETTINGS_ADDRESS 7).map (fun s =>
        (targets s).takeWhile (fun t => decide (t ≠ Target.cr))) =
      some [Target.keyr, Target.keyr] := by
  refine ⟨?_, ?_, ?_, ?_⟩ <;> decide!

theorem flash_wait_eop_eq (s : Device) :
    flash_wait_eop s = if s.SR.testBit 0 then none else some s := by
  unfold flash_wait_eop
  by_cases h : s.SR.testBit 0 = true
  · rw [if_pos ((and_EOP_eq_iff _).2 h), if_pos h]
  · rw [if_neg (fun h' => h ((and_EOP_eq_iff _).1 h')), if_neg h]

/-- C14 (the code breaks it). The poll on `EOP` in `flash_program_double_word` is left
exactly when `EOP` is clear and spins while it is set, the opposite of the wait for the
flag to be set that the comment in the source announces: with the status register at 0
the loop is left at the first test, with only `EOP` set it is never left, and so the
call on the reset device with `EOP` set does not return. -/
theorem eop_poll_waits_for_clear (s : Device) :
    flash_wait_eop s = (if s.SR.testBit 0 then none else some s) ∧
    resetDevice.SR.testBit 0 = false ∧ (flash_wait_eop resetDevice).isSome = true ∧
    (flash_wait_eop { resetDevice with SR := FLASH_SR_EOP }).isSome = false ∧
    (flash_program_double_word { resetDevice with SR := FLASH_SR_EOP }
      SETTINGS_ADDRESS 7).isSome = false ∧
    (flash_program_double_word resetDevice SETTINGS_ADDRESS 7).isSome = true := by
  refine ⟨flash_wait_eop_eq s, ?_, ?_, ?_, ?_, ?_⟩ <;> decide!

/-- C15. `flash_clear_status_flags` clears every sticky flag: for every device, after
the call the flags `PGSERR`, `SIZERR`, `PGAERR`, `WRPERR`, `PROGERR` and `EOP` (bits 7,
6, 5, 4, 3 and 0 of the status register) are clear, and the six stores to the status
register that the call issues, each the register as read or-ed with one flag, carry a
one at bit 7, 6, 5, 4, 3 and 0 in this order. -/
theorem clear_status_flags_clears_all (s : Device) :
    (flash_clear_status_flags s).SR.testBit 7 = false ∧
    (flash_clear_status_flags s).SR.testBit 6 = false ∧
    (flash_clear_status_flags s).SR.testBit 5 = false ∧
    (flash_clear_status_flags s).SR.testBit 4 = false ∧
    (flash_clear_status_flags s).SR.testBit 3 = false ∧
    (flash_clear_status_flags s).SR.testBit 0 = false ∧
    srWrites (flash_clear_status_flags s).log =
      srWrites s.log ++
        [s.SR ||| FLASH_SR_PGSERR,
         (flash_clear_pgserr_flag s).SR ||| FLASH_SR_SIZERR,
         (flash_clear_size_flag (flash_clear_pgserr_flag s)).SR ||| FLASH_SR_PGAERR,
         (flash_clear_pgaerr_flag (flash_clear_size_flag (flash_clear_pgserr_flag s))).SR
           ||| FLASH_SR_WRPERR,
         (flash_clear_wrperr_flag (flash_clear_pgaerr_flag (flash_clear_size_flag
           (flash_clear_pgserr_flag s)))).SR ||| FLASH_SR_PROGERR,
         (flash_clear_progerr_flag (flash_clear_wrperr_flag (flash_clear_pgaerr_flag
           (flash_clear_size_flag (flash_clear_pgserr_flag s))))).SR ||| FLASH_SR_EOP] ∧
    (s.SR ||| FLASH_SR_PGSERR).testBit 7 = true ∧
    ((flash_clear_pgserr_flag s).SR ||| FLASH_SR_SIZERR).testBit 6 = true ∧
    ((flash_clear_size_flag (flash_clear_pgserr_flag s)).SR ||| FLASH_SR_PGAERR).testBit 5
      = true ∧
    ((flash_clear_pgaerr_flag (flash_clear_size_flag (flash_clear_pgserr_flag s))).SR
      ||| FLASH_SR_WRPERR).testBit 4 = true ∧
    ((flash_clear_wrperr_flag (flash_clear_pgaerr_flag (flash_clear_size_flag
      (flash_clear_pgserr_flag s)))).SR ||| FLASH_SR_PROGERR).testBit 3 = true ∧
    ((flash_clear_progerr_flag (flash_clear_wrperr_flag (flash_clear_pgaerr_flag
      (flash_clear_size_flag (flash_clear_pgserr_flag s))))).SR ||| FLASH_SR_EOP).testBit 0
      = true := by
  have h7 : FLASH_SR_W1C.testBit 7 = true := by decide
  have h6 : FLASH_SR_W1C.testBit 6 = true := by decide
  have h5 : FLASH_SR_W1C.testBit 5 = true := by decide
  have h4 : FLASH_SR_W1C.testBit 4 = true := by decide
  refine ⟨?_, ?_, ?_, ?_, ?_, ?_, ?_, ?_, ?_, ?_, ?_, ?_, ?_⟩
  · rw [flash_clear_status_flags_SR, h7]; simp
  · rw [flash_clear_status_flags_SR, h6]; simp
  · rw [flash_clear_status_flags_SR, h5]; simp
  · rw [flash_clear_status_flags_SR, h4]; simp
  · rw [flash_clear_status_flags_SR, testBit_W1C_3]; simp
  · rw [flash_clear_status_flags_SR, testBit_W1C_0]; simp
  · simp only [flash_clear_status_flags, flash_clear_pgserr_flag, flash_clear_size_flag,
      flash_clear_pgaerr_flag, flash_clear_wrperr_flag, flash_clear_progerr_flag,
      flash_clear_eop_flag, hw_writeSR_log, srWrites_append, srWrites, List.append_assoc,
      List.cons_append, List.nil_append]
  · rw [Nat.testBit_or, testBit_SR_PGSERR]; simp
  · rw [Nat.testBit_or, testBit_SR_SIZERR]; simp
  · rw [Nat.testBit_or, testBit_SR_PGAERR]; simp
  · rw [Nat.testBit_or, testBit_SR_WRPERR]; simp
  · rw [Nat.testBit_or, testBit_SR_PROGERR]; simp
  · rw [Nat.testBit_or, testBit_SR_EOP]; simp

theorem program_CR_bits (s : Device) (a d : Nat) :
    (flash_program_double_word s a d).all
      (fun s' => !s'.CR.testBit 0 && (s'.CR.testBit 1 == s.CR.testBit 1)) = true := by
  unfold flash_program_double_word
  simp only []
  split
  · rfl
  · rename_i t ht
    simp only [flash_wait_eop] at ht
    split at ht
    · exact absurd ht (by simp)
    · simp only [Option.some.injEq] at ht
      subst ht
      simp only [Option.all]
      simp [-Nat.testBit_zero, lock_flash]

/-- C16. Mode bits are dropped on return: for every device and every argument, the
erase-mode bit is clear when `flash_erase_page` returns and the program-mode bit is
clear whenever `flash_program_double_word` returns; `flash_erase_page` leaves the
program-mode bit as it was and `flash_program_double_word` leaves the erase-mode bit as
it was. -/
theorem mode_bits_dropped (s : Device) (bank page a d : Nat) :
    (flash_erase_page s bank page).CR.testBit 1 = false ∧
    (flash_erase_page s bank page).CR.testBit 0 = s.CR.testBit 0 ∧
    (flash_program_double_word s a d).all (fun s' => !s'.CR.testBit 0) = true ∧
    (flash_program_double_word s a d).all
      (fun s' => s'.CR.testBit 1 == s.CR.testBit 1) = true ∧
    (flash_program_double_word resetDevice SETTINGS_ADDRESS 7).isSome = true := by
  have h := program_CR_bits s a d
  refine ⟨erase_CR_PER s bank page, erase_CR_PG s bank page, ?_, ?_, by decide!⟩
  · cases hp : flash_program_double_word s a d with
    | none => rfl
    | some s' =>
      rw [hp] at h
      simp only [Option.all, Bool.and_eq_true] at h ⊢
      exact h.1
  · cases hp : flash_program_double_word s a d with
    | none => rfl
    | some s' =>
      rw [hp] at h
      simp only [Option.all, Bool.and_eq_true] at h ⊢
      exact h.2

theorem writeClubs_loop_wide_unroll (s : Device) (clubs : List Nat) :
    writeClubs_loop_wide clubs 12 0 0 s =
      (flash_program_double_word s CLUB_ADDRESS (writeClubs_word clubs 0)).bind (fun s1 =>
        (flash_program_double_word s1 (CLUB_ADDRESS + 8) (writeClubs_word clubs 4)).bind
          (fun s2 =>
            flash_program_double_word s2 (CLUB_ADDRESS + 16) (writeClubs_word clubs 8))) := by
  simp only [writeClubs_loop_wide]
  norm_num
  cases flash_program_double_word s CLUB_ADDRESS (writeClubs_word clubs 0) with
  | none => rfl
  | some s1 =>
    simp only [Option.bind]
    cases flash_program_double_word s1 (CLUB_ADDRESS + 8) (writeClubs_word clubs 4) with
    | none => rfl
    | some s2 =>
      simp only []
      cases flash_program_double_word s2 (CLUB_ADDRESS + 16) (writeClubs_word clubs 8) <;> rfl

theorem writeClubs_loop_unroll (s : Device) (clubs : List Nat) :
    writeClubs_loop clubs 12 0 0 s =
      (flash_program_double_word s CLUB_ADDRESS (writeClubs_word clubs 0)).bind (fun s1 =>
        (flash_program_double_word s1 (CLUB_ADDRESS + 8) (writeClubs_word clubs 4)).bind
          (fun s2 =>
            flash_program_double_word s2 (CLUB_ADDRESS + 16) (writeClubs_word clubs 8))) := by
  simp only [writeClubs_loop]
  norm_num
  cases flash_program_double_word s CLUB_ADDRESS (writeClubs_word clubs 0) with
  | none => rfl
  | some s1 =>
    simp only [Option.bind]
    cases flash_program_double_word s1 (CLUB_ADDRESS + 8) (writeClubs_word clubs 4) with
    | none => rfl
    | some s2 =>
      simp only []
      cases flash_program_double_word s2 (CLUB_ADDRESS + 16) (writeClubs_word clubs 8) <;> rfl

/-- C17. Layout consistency.  `writeClubs` erases with `(2, 255)` and programs exactly
`0x080FF800`, `0x080FF808` and `0x080FF810`; `writeSettings` erases with `(2, 0)` and
programs exactly `0x08080000`; `writePosition` erases with `(2, 1)` and programs exactly
`0x08080800`.  Each programmed address is 8-byte aligned, its double word lies in the
page of bank 2 that the same write passes to `flash_erase_page`, and in the page of no
other record.  The loop of `writeClubs` does the same with an offset counter that is not
cut to 8 bits, so the counter never wraps. -/
theorem layout_consistency (s : Device) (X : List Nat) (p : Nat) :
    writeClubs s X =
      (flash_program_double_word (flash_erase_page s 2 255) 0x080FF800
          (writeClubs_word X 0)).bind (fun s1 =>
        (flash_program_double_word s1 0x080FF808 (writeClubs_word X 4)).bind (fun s2 =>
          flash_program_double_word s2 0x080FF810 (writeClubs_word X 8))) ∧
    writeSettings s X =
      flash_program_double_word (flash_erase_page s 2 0) 0x08080000 (writeSettings_word X) ∧
    writePosition s p =
      flash_program_double_word (flash_erase_page s 2 1) 0x08080800 (p % 2 ^ 16) ∧
    writeClubs_loop X 12 0 0 s = writeClubs_loop_wide X 12 0 0 s ∧
    (0x080FF800 % 8 = 0 ∧ 0x080FF808 % 8 = 0 ∧ 0x080FF810 % 8 = 0 ∧
      0x08080000 % 8 = 0 ∧ 0x08080800 % 8 = 0) ∧
    (inPage true 255 0x080FF800 = true ∧ inPage true 255 (0x080FF800 + 7) = true ∧
      inPage true 255 0x080FF808 = true ∧ inPage true 255 (0x080FF808 + 7) = true ∧
      inPage true 255 0x080FF810 = true ∧ inPage true 255 (0x080FF810 + 7) = true ∧
      inPage true 0 0x08080000 = true ∧ inPage true 0 (0x08080000 + 7) = true ∧
      inPage true 1 0x08080800 = true ∧ inPage true 1 (0x08080800 + 7) = true) ∧
    (inPage true 0 0x080FF800 = false ∧ inPage true 1 0x080FF800 = false ∧
      inPage true 0 0x080FF810 = false ∧ inPage true 1 0x080FF810 = false ∧
      inPage true 1 0x08080000 = false ∧ inPage true 255 0x08080000 = false ∧
      inPage true 0 0x08080800 = false ∧ inPage true 255 0x08080800 = false) ∧
    pageBase (decide (2 % 256 ≠ 1)) 255 = 0x080FF800 ∧
    pageBase (decide (2 % 256 ≠ 1)) 0 = 0x08080000 ∧
    pageBase (decide (2 % 256 ≠ 1)) 1 = 0x08080800 := by
  refine ⟨writeClubs_unroll s X, rfl, rfl, ?_, by decide, by decide, by decide, by decide,
    by decide, by decide⟩
  rw [writeClubs_loop_unroll, writeClubs_loop_wide_unroll]

theorem writeSettings_word_cons (a b : Nat) (rest : List Nat) (ha : a < 2 ^ 16)
    (hb : b < 2 ^ 16) : writeSettings_word (a :: b :: rest) = a + b * 2 ^ 16 := by
  have h : writeSettings_word (a :: b :: rest) =
      (a % 2 ^ 16 ||| ((b % 2 ^ 16) <<< 16) % 2 ^ 64) := by
    simp only [writeSettings_word, List.getElem!_cons_succ, List.getElem!_cons_zero]
  rw [h, pack2_eq a b ha hb, Nat.mul_comm]

/-- C18. Deterministic zero padding of partial words: for all 16-bit inputs, whatever the
device holds and whatever follows the two settings in memory, the word `writeSettings`
passes to `flash_program_double_word` is `settings[0] + settings[1] * 2 ^ 16`, below
`2 ^ 32`, and the word `writePosition` passes is `position`, below `2 ^ 16`. -/
theorem zero_padding (s : Device) (a b p : Nat) (rest : List Nat) (ha : a < 2 ^ 16)
    (hb : b < 2 ^ 16) (hp : p < 2 ^ 16) :
    writeSettings s (a :: b :: rest) =
      flash_program_double_word (flash_erase_page s 2 0) SETTINGS_ADDRESS
        (a + b * 2 ^ 16) ∧
    writeSettings_word (a :: b :: rest) = a + b * 2 ^ 16 ∧
    a + b * 2 ^ 16 < 2 ^ 32 ∧
    (a + b * 2 ^ 16) >>> 32 = 0 ∧
    writePosition s p =
      flash_program_double_word (flash_erase_page s 2 1) POSITION_ADDRESS p ∧
    p >>> 16 = 0 := by
  have hw := writeSettings_word_cons a b rest ha hb
  refine ⟨?_, hw, by omega, ?_, ?_, ?_⟩
  · rw [← hw]; rfl
  · rw [Nat.shiftRight_eq_div_pow]; omega
  · have h : writePosition s p =
        flash_program_double_word (flash_erase_page s 2 1) POSITION_ADDRESS (p % 2 ^ 16) :=
      rfl
    rw [h, Nat.mod_eq_of_lt hp]
  · rw [Nat.shiftRight_eq_div_pow]; omega

/-- Witness of C18: settings 7 and 9 followed by other memory, position 5, on a device
full of old data. -/
theorem zero_padding_witness :
    writeSettings usedDevice [7, 9, 65535, 1234] =
      flash_program_double_word (flash_erase_page usedDevice 2 0) SETTINGS_ADDRESS
        (7 + 9 * 2 ^ 16) ∧
    writeSettings_word [7, 9, 65535, 1234] = 7 + 9 * 2 ^ 16 ∧
    7 + 9 * 2 ^ 16 < 2 ^ 32 ∧
    (7 + 9 * 2 ^ 16) >>> 32 = 0 ∧
    writePosition usedDevice 5 =
      flash_program_double_word (flash_erase_page usedDevice 2 1) POSITION_ADDRESS 5 ∧
    5 >>> 16 = 0 :=
  zero_padding usedDevice 7 9 5 [65535, 1234] (by decide) (by decide) (by decide)

theorem erase_lastStartStore (s : Device) (bank page : Nat) :
    lastStartStore (flash_erase_page s bank page).log =
      some (erase_v4 (erase_c0 s.CR (s.SR.testBit 16)) bank page) := by
  have h6 : (erase_v6 (erase_c0 s.CR (s.SR.testBit 16)) bank page).testBit 16 = false := by
    simp [erase_v6, erase_v5]
  have h5 : (erase_v5 (erase_c0 s.CR (s.SR.testBit 16)) bank page).testBit 16 = false := by
    simp [erase_v5]
  have h4 := erase_v4_STRT (erase_c0 s.CR (s.SR.testBit 16)) bank page
  simp only [lastStartStore, erase_crWrites, List.reverse_append, List.reverse_cons,
    List.reverse_nil, List.nil_append, List.cons_append, List.find?, h6, h5, h4]

/-- C11 (the code breaks it). The store of `flash_erase_page` that sets the start bit
carries, in the page-index field, the requested page or-ed with what the field held
before, not the requested page.  On a device fresh from reset, after `writeSettings` and
`writePosition(5)`, `flash_erase_page(2, 0)` starts the erase with page index 1: the
settings double word in page 0 keeps its content and the position double word in page 1
is erased. -/
theorem erase_targets_stale_page (s : Device) (bank page : Nat) :
    lastStartStore (flash_erase_page s bank page).log =
      some (erase_v4 (erase_c0 s.CR (s.SR.testBit 16)) bank page) ∧
    pnbField (erase_v4 (erase_c0 s.CR (s.SR.testBit 16)) bank page % 2 ^ 32) =
      pnbField s.CR ||| page % 256 ∧
    ((writeSettings resetDevice [1, 2]).bind (fun s0 => writePosition s0 5)).map (fun s0 =>
        ((lastStartStore (flash_erase_page s0 2 0).log).map pnbField,
         settingsCell s0, settingsCell (flash_erase_page s0 2 0),
         positionCell s0, positionCell (flash_erase_page s0 2 0)))
      = some (some 1, 0x20001, 0x20001, 5, 0xFFFFFFFFFFFFFFFF) := by
  refine ⟨erase_lastStartStore s bank page, erase_v4_pnb s.CR (s.SR.testBit 16) bank page, ?_⟩
  decide!

@[simp]
theorem flashWrites_unlock (s : Device) :
    flashWrites (unlock_flash s).log = flashWrites s.log := by
  rw [unlock_flash_eq]; simp [flashWrites_append, flashWrites]

@[simp]
theorem flashWrites_writeCR (s : Device) (v : Nat) :
    flashWrites (hw_writeCR s v).log = flashWrites s.log := by
  simp [hw_writeCR_log, flashWrites_append, flashWrites]

@[simp]
theorem flashWrites_writeSR (s : Device) (v : Nat) :
    flashWrites (hw_writeSR s v).log = flashWrites s.log := by
  simp [hw_writeSR_log, flashWrites_append, flashWrites]

@[simp]
theorem flashWrites_store32 (s : Device) (a v : Nat) :
    flashWrites (hw_store32 s a v).log = flashWrites s.log ++ [(a, v)] := by
  simp [hw_store32_log, flashWrites_append, flashWrites]

@[simp]
theorem flashWrites_clear (s : Device) :
    flashWrites (flash_clear_status_flags s).log = flashWrites s.log := by
  simp [flash_clear_status_flags, flash_clear_pgserr_flag, flash_clear_size_flag,
    flash_clear_pgaerr_flag, flash_clear_wrperr_flag, flash_clear_progerr_flag,
    flash_clear_eop_flag]

@[simp]
theorem crWrites_store32 (s : Device) (a v : Nat) :
    crWrites (hw_store32 s a v).log = crWrites s.log := by
  simp [hw_store32_log, crWrites_append, crWrites]

theorem and_right_comm' (a b c : Nat) : a &&& b &&& c = a &&& c &&& b := by
  apply Nat.eq_of_testBit_eq
  intro i
  simp only [Nat.testBit_and]
  cases a.testBit i <;> cases b.testBit i <;> cases c.testBit i <;> rfl

theorem wait_unlock_of_busy (s : Device) (hb : s.SR.testBit 16 = true) :
    flash_wait_for_last_operation (unlock_flash s) =
      flash_wait_for_last_operation (unlock_flash (flash_wait_for_last_operation s)) := by
  have h24 : (s.CR &&& not32 FLASH_CR_LOCK).testBit 24 = s.CR.testBit 24 := by simp
  have hnb : ((s.SR &&& not32 FLASH_SR_BSY) |||
      (if s.CR.testBit 24 = true then FLASH_SR_EOP else 0)).testBit 16 = false := by
    split <;> simp
  rw [flash_wait_eq (unlock_flash s), flash_wait_eq s]
  simp only [hb, if_true, unlock_flash_eq]
  rw [flash_wait_eq]
  simp only [hnb, h24, Bool.false_eq_true, if_false,
    and_right_comm' s.CR (not32 FLASH_CR_LOCK) (not32 FLASH_CR_STRT)]

/-- A call of `flash_program_double_word` while an operation is running first waits for
its end. -/
theorem program_of_busy (s : Device) (a d : Nat) (hb : s.SR.testBit 16 = true) :
    flash_program_double_word s a d =
      flash_program_double_word (flash_wait_for_last_operation s) a d := by
  unfold flash_program_double_word
  simp only []
  rw [wait_unlock_of_busy s hb]

/-! ## `flash_program_double_word` around its poll on `EOP` -/

/-- The call is its first part, the poll, and its second part. -/
theorem program_split (s : Device) (a d : Nat) :
    flash_program_double_word s a d =
      (flash_wait_eop (program_until_poll s a d)).map program_after_poll := by
  unfold flash_program_double_word program_until_poll program_after_poll
  simp only []
  cases flash_wait_eop _ <;> rfl

theorem targets_program_until_poll (s : Device) (a d : Nat) :
    targets (program_until_poll s a d) =
      targets s ++ [Target.keyr, Target.keyr, Target.cr, Target.flash, Target.flash] := by
  simp [program_until_poll]

theorem targets_program_after_poll (t : Device) :
    targets (program_after_poll t) =
      targets t ++ [Target.sr, Target.sr, Target.sr, Target.sr, Target.sr, Target.sr,
        Target.sr, Target.cr, Target.cr] := by
  simp [program_after_poll, lock_flash]

theorem flash_wait_BSY (s : Device) :
    (flash_wait_for_last_operation s).SR.testBit 16 = false := by
  rw [flash_wait_SR]
  by_cases hb : s.SR.testBit 16 = true
  · rw [if_pos hb]
    split <;> simp
  · rw [if_neg hb]
    simpa using hb

theorem program_until_poll_BSY (s : Device) (a d : Nat) :
    (program_until_poll s a d).SR.testBit 16 = false := by
  unfold program_until_poll
  exact flash_wait_BSY _

/-- With `EOP` clear and its interrupt off, both stay so through the first part of the
call. -/
theorem program_until_poll_EOP (s : Device) (a d : Nat)
    (hE : s.SR.testBit 0 = false) (hI : s.CR.testBit 24 = false) :
    (program_until_poll s a d).SR.testBit 0 = false := by
  have wait_ok : ∀ t : Device, t.SR.testBit 0 = false → t.CR.testBit 24 = false →
      (flash_wait_for_last_operation t).SR.testBit 0 = false ∧
        (flash_wait_for_last_operation t).CR.testBit 24 = false := by
    intro t h0 h24
    rw [flash_wait_SR, flash_wait_CR]
    constructor <;> split <;> simp [-Nat.testBit_zero, h0, h24]
  have cr_ok : ∀ (t : Device) (v : Nat), t.SR.testBit 0 = false → t.CR.testBit 24 = false →
      v.testBit 24 = false →
      (hw_writeCR t v).SR.testBit 0 = false ∧ (hw_writeCR t v).CR.testBit 24 = false := by
    intro t v h0 h24 hv
    rw [hw_writeCR_SR, hw_writeCR_CR]
    constructor <;> split <;> simp [-Nat.testBit_zero, h0, h24, hv]
  have st_ok : ∀ (t : Device) (x v : Nat), t.SR.testBit 0 = false →
      t.CR.testBit 24 = false →
      (hw_store32 t x v).SR.testBit 0 = false ∧ (hw_store32 t x v).CR.testBit 24 = false := by
    intro t x v h0 h24
    rw [hw_store32_SR, hw_store32_CR]
    refine ⟨?_, h24⟩
    split_ifs <;> simp [-Nat.testBit_zero, h0]
  unfold program_until_poll
  simp only []
  have h1 := wait_ok (unlock_flash s) (by rw [unlock_flash_SR]; exact hE)
    (by rw [unlock_flash_CR]; simp [hI])
  have h2 := cr_ok _ ((flash_wait_for_last_operation (unlock_flash s)).CR ||| FLASH_CR_PG)
    h1.1 h1.2 (by rw [Nat.testBit_or, h1.2]; simp)
  have h3 := st_ok _ (a % 2 ^ 32) (d % 2 ^ 64 % 2 ^ 32) h2.1 h2.2
  have h4 := st_ok _ ((a % 2 ^ 32 + 4) % 2 ^ 32) ((d % 2 ^ 64) >>> 32 % 2 ^ 32) h3.1 h3.2
  exact (wait_ok _ h4.1 h4.2).1

/-- With `EOP` clear and its interrupt off the call returns. -/
theorem program_returns (s : Device) (a d : Nat)
    (hE : s.SR.testBit 0 = false) (hI : s.CR.testBit 24 = false) :
    flash_program_double_word s a d = some (program_after_poll (program_until_poll s a d)) := by
  rw [program_split, flash_wait_eop_eq, program_until_poll_EOP s a d hE hI]
  rfl

/-- An erase leaves an erased double word erased. -/
theorem load64_hw_erase (m : Nat → Nat) (b : Bool) (p a : Nat)
    (h : load64 m a = 0xFFFFFFFFFFFFFFFF) :
    load64 (hw_erase m b p) a = 0xFFFFFFFFFFFFFFFF := by
  unfold load64 at h
  have h0 : m a % 2 ^ 32 < 2 ^ 32 := Nat.mod_lt _ (by norm_num)
  have h4 : m (a + 4) % 2 ^ 32 < 2 ^ 32 := Nat.mod_lt _ (by norm_num)
  have e0 : m a % 2 ^ 32 = 0xFFFFFFFF := by omega
  have e4 : m (a + 4) % 2 ^ 32 = 0xFFFFFFFF := by omega
  have key : ∀ x, m x % 2 ^ 32 = 0xFFFFFFFF → hw_erase m b p x % 2 ^ 32 = 0xFFFFFFFF := by
    intro x hx
    unfold hw_erase
    split
    · norm_num
    · exact hx
  unfold load64
  rw [key a e0, key (a + 4) e4]
  norm_num

/-- The state in which the two flash stores are made: unlocked, in program mode, and the
flash array as on entry unless the control register had an erase armed (start bit and
erase-mode bit set with no operation running), which the store that sets the
program-mode bit then starts. -/
theorem program_mode_state (s : Device) :
    ∀ t, t = hw_writeCR (flash_wait_for_last_operation (unlock_flash s))
      ((flash_wait_for_last_operation (unlock_flash s)).CR ||| FLASH_CR_PG) →
    t.CR.testBit 31 = false ∧ t.CR.testBit 0 = true ∧
    t.mem = (if s.SR.testBit 16 = false ∧ s.CR.testBit 16 = true ∧ s.CR.testBit 1 = true then
        hw_erase s.mem (s.CR.testBit 11) (pnbField s.CR) else s.mem) := by
  intro t ht
  subst ht
  have hpnb1 : pnbField ((s.CR &&& not32 FLASH_CR_LOCK ||| FLASH_CR_PG) % 4294967296) =
      pnbField s.CR := by
    apply pnbField_congr
    intro k h3 h10
    interval_cases k <;> simp
  by_cases hb : s.SR.testBit 16 = true
  · refine ⟨by simp [hb], by simp [-Nat.testBit_zero, hb], ?_⟩
    simp [-Nat.testBit_zero, hb]
  · have hb' : s.SR.testBit 16 = false := by simpa using hb
    refine ⟨by simp [hb'], by simp [-Nat.testBit_zero, hb'], ?_⟩
    by_cases h16 : s.CR.testBit 16 = true <;> by_cases h1 : s.CR.testBit 1 = true <;>
      simp [-Nat.testBit_zero, hb', h16, h1, hpnb1]

/-- The first part of the call on an erased, aligned double word: both halves are
programmed, an operation has run and ended, and the start bit is clear. -/
theorem program_until_poll_mem (s : Device) (a d : Nat)
    (ha : a % 8 = 0) (ha32 : a < 2 ^ 32) (hd : d < 2 ^ 64)
    (her : load64 s.mem a = 0xFFFFFFFFFFFFFFFF) :
    (program_until_poll s a d).mem =
      (fun x => if x = a + 4 then d >>> 32 else if x = a then d % 2 ^ 32
        else (if s.SR.testBit 16 = false ∧ s.CR.testBit 16 = true ∧ s.CR.testBit 1 = true
          then hw_erase s.mem (s.CR.testBit 11) (pnbField s.CR) else s.mem) x) ∧
    (program_until_poll s a d).CR.testBit 16 = false ∧
    (program_until_poll s a d).CR.testBit 31 = false := by
  have ha' : (a + 4) % 2 ^ 32 = a + 4 := Nat.mod_eq_of_lt (by omega)
  have ha0 : a % 2 ^ 32 = a := Nat.mod_eq_of_lt ha32
  have hd64 : d % 2 ^ 64 = d := Nat.mod_eq_of_lt hd
  have h32 : (d >>> 32) % 2 ^ 32 = d >>> 32 := by
    rw [Nat.shiftRight_eq_div_pow]; omega
  obtain ⟨hL, hP, hm⟩ := program_mode_state s _ rfl
  unfold program_until_poll
  simp only [ha0, ha', hd64, h32]
  generalize hw_writeCR (flash_wait_for_last_operation (unlock_flash s))
      ((flash_wait_for_last_operation (unlock_flash s)).CR ||| FLASH_CR_PG) = t
    at hL hP hm ⊢
  have hert : load64 t.mem a = 0xFFFFFFFFFFFFFFFF := by
    rw [hm]
    split
    · exact load64_hw_erase _ _ _ _ her
    · exact her
  obtain ⟨h2c, h2m, h2s⟩ := program_phase2 t a (d % 2 ^ 32) (d >>> 32) hL hP ha _ rfl
  generalize hw_store32 (hw_store32 t a (d % 2 ^ 32)) (a + 4) (d >>> 32) = u
    at h2c h2m h2s ⊢
  rw [if_pos hert] at h2m h2s
  have hub : u.SR.testBit 16 = true := by rw [h2s]; simp
  refine ⟨?_, ?_, ?_⟩
  · rw [flash_wait_mem, h2m, hm, h32, Nat.mod_mod]
  · rw [flash_wait_CR, if_pos hub]; simp
  · rw [flash_wait_CR, if_pos hub, h2c]; simp [hL]

/-- The second part of the call leaves the flash array alone when the start bit is
clear. -/
theorem program_after_poll_mem (t : Device) (h : t.CR.testBit 16 = false) :
    (program_after_poll t).mem = t.mem := by
  by_cases hl : t.CR.testBit 31 = true <;>
    simp [-Nat.testBit_zero, program_after_poll, lock_flash, h, hl]

theorem flashWrites_program_until_poll (s : Device) (a d : Nat) :
    flashWrites (program_until_poll s a d).log =
      flashWrites s.log ++
        [(a % 2 ^ 32, d % 2 ^ 64 % 2 ^ 32),
         ((a % 2 ^ 32 + 4) % 2 ^ 32, ((d % 2 ^ 64) >>> 32) % 2 ^ 32)] := by
  simp [program_until_poll]

theorem flashWrites_program_after_poll (t : Device) :
    flashWrites (program_after_poll t).log = flashWrites t.log := by
  simp [program_after_poll, lock_flash]

theorem crWrites_program_until_poll (s : Device) (a d : Nat) :
    crWrites (program_until_poll s a d).log =
      crWrites s.log ++ [(flash_wait_for_last_operation (unlock_flash s)).CR ||| FLASH_CR_PG] := by
  simp [-Nat.testBit_zero, program_until_poll]

theorem program_until_poll_LOCK (s : Device) (a d : Nat) :
    (program_until_poll s a d).CR.testBit 31 = false := by
  unfold program_until_poll
  simp only []
  obtain ⟨hL, -, -⟩ := program_mode_state s _ rfl
  generalize hw_writeCR (flash_wait_for_last_operation (unlock_flash s))
      ((flash_wait_for_last_operation (unlock_flash s)).CR ||| FLASH_CR_PG) = t at hL ⊢
  rw [flash_wait_CR]
  split <;> simp [hL]

theorem crWrites_program_after_poll (t : Device) (hL : t.CR.testBit 31 = false) :
    crWrites (program_after_poll t).log =
      crWrites t.log ++ [t.CR &&& not32 FLASH_CR_PG,
        (t.CR &&& not32 FLASH_CR_PG) % 2 ^ 32 ||| FLASH_CR_LOCK] := by
  simp [-Nat.testBit_zero, program_after_poll, lock_flash, hL]

/-! ## The stores to the status register that a call issues -/

@[simp]
theorem srWrites_unlock (s : Device) : srWrites (unlock_flash s).log = srWrites s.log := by
  rw [unlock_flash_eq]; simp [srWrites_append, srWrites]

@[simp]
theorem srWrites_writeCR (s : Device) (v : Nat) :
    srWrites (hw_writeCR s v).log = srWrites s.log := by
  rw [hw_writeCR_log]; simp [srWrites_append, srWrites]

@[simp]
theorem srWrites_writeSR (s : Device) (v : Nat) :
    srWrites (hw_writeSR s v).log = srWrites s.log ++ [v] := by
  rw [hw_writeSR_log]; simp [srWrites_append, srWrites]

@[simp]
theorem srWrites_store32 (s : Device) (a v : Nat) :
    srWrites (hw_store32 s a v).log = srWrites s.log := by
  rw [hw_store32_log]; simp [srWrites_append, srWrites]

/-- The six values `flash_clear_status_flags` stores to the status register. -/
theorem srWrites_clear (s : Device) :
    srWrites (flash_clear_status_flags s).log =
      srWrites s.log ++
        [s.SR ||| FLASH_SR_PGSERR,
         (flash_clear_pgserr_flag s).SR ||| FLASH_SR_SIZERR,
         (flash_clear_size_flag (flash_clear_pgserr_flag s)).SR ||| FLASH_SR_PGAERR,
         (flash_clear_pgaerr_flag (flash_clear_size_flag (flash_clear_pgserr_flag s))).SR
           ||| FLASH_SR_WRPERR,
         (flash_clear_wrperr_flag (flash_clear_pgaerr_flag (flash_clear_size_flag
           (flash_clear_pgserr_flag s)))).SR ||| FLASH_SR_PROGERR,
         (flash_clear_progerr_flag (flash_clear_wrperr_flag (flash_clear_pgaerr_flag
           (flash_clear_size_flag (flash_clear_pgserr_flag s))))).SR ||| FLASH_SR_EOP] := by
  simp only [flash_clear_status_flags, flash_clear_pgserr_flag, flash_clear_size_flag,
    flash_clear_pgaerr_flag, flash_clear_wrperr_flag, flash_clear_progerr_flag,
    flash_clear_eop_flag, hw_writeSR_log, srWrites_append, srWrites, List.append_assoc,
    List.cons_append, List.nil_append]

/-- A store to the status register leaves `BSY` as it is. -/
theorem hw_writeSR_BSY (s : Device) (v : Nat) :
    (hw_writeSR s v).SR.testBit 16 = s.SR.testBit 16 := by
  rw [hw_writeSR_SR]
  simp

/-- Run with `BSY` clear, `flash_clear_status_flags` stores six values with `BSY`
clear. -/
theorem srWrites_clear_BSY (s : Device) (h : s.SR.testBit 16 = false) :
    ((srWrites (flash_clear_status_flags s).log).drop (srWrites s.log).length).map
        (fun v => v.testBit 16) =
      [false, false, false, false, false, false] := by
  rw [srWrites_clear, List.drop_left]
  simp [flash_clear_pgserr_flag, flash_clear_size_flag, flash_clear_pgaerr_flag,
    flash_clear_wrperr_flag, flash_clear_progerr_flag, h]

/-- The stores of `flash_erase_page` to the status register are those of
`flash_clear_status_flags`, run on the state that `unlock_flash` and the busy wait have
left. -/
theorem srWrites_erase (s : Device) (bank page : Nat) :
    srWrites (flash_erase_page s bank page).log =
      srWrites (flash_clear_status_flags
        (flash_wait_for_last_operation (unlock_flash s))).log := by
  by_cases hb : bank % 256 = 1 <;> simp [flash_erase_page, lock_flash, hb]

theorem srWrites_erase_BSY (s : Device) (bank page : Nat) :
    ((srWrites (flash_erase_page s bank page).log).drop (srWrites s.log).length).map
        (fun v => v.testBit 16) =
      [false, false, false, false, false, false] := by
  have h := srWrites_clear_BSY (flash_wait_for_last_operation (unlock_flash s))
    (flash_wait_BSY _)
  rw [flash_wait_log, srWrites_unlock] at h
  rw [srWrites_erase]
  exact h

theorem srWrites_program_until_poll (s : Device) (a d : Nat) :
    srWrites (program_until_poll s a d).log = srWrites s.log := by
  simp [program_until_poll]

/-- The stores of the second part of `flash_program_double_word` to the status register:
the one of `FLASH->SR &= ~FLASH_SR_EOP;`, then those of `flash_clear_status_flags`. -/
theorem srWrites_program_after_poll (t : Device) :
    srWrites (program_after_poll t).log =
      srWrites (flash_clear_status_flags
        (hw_writeSR t (t.SR &&& not32 FLASH_SR_EOP))).log := by
  simp [program_after_poll, lock_flash]

theorem srWrites_program_after_poll_BSY (t : Device) (h : t.SR.testBit 16 = false) :
    ((srWrites (program_after_poll t).log).drop (srWrites t.log).length).map
        (fun v => v.testBit 16) =
      [false, false, false, false, false, false, false] := by
  have hc := srWrites_clear_BSY (hw_writeSR t (t.SR &&& not32 FLASH_SR_EOP))
    (by rw [hw_writeSR_BSY]; exact h)
  rw [srWrites_program_after_poll]
  rw [srWrites_clear] at hc ⊢
  rw [srWrites_writeSR, List.drop_left] at hc
  rw [srWrites_writeSR, List.append_assoc, List.drop_left]
  simp only [List.singleton_append, List.map_cons, hc, Nat.testBit_and, h, Bool.false_and]

/-! ## The mode and lock bits of the stores to the control register -/

/-- Of the six stores of `flash_erase_page` to the control register the first four carry
the erase-mode bit and the last two do not; only the last carries `LOCK`. -/
theorem erase_crWrites_bits (s : Device) (bank page : Nat) :
    ((crWrites (flash_erase_page s bank page).log).drop (crWrites s.log).length).map
        (fun v => v.testBit 1) = [true, true, true, true, false, false] ∧
    ((crWrites (flash_erase_page s bank page).log).drop (crWrites s.log).length).map
        (fun v => v.testBit 31) = [false, false, false, false, false, true] := by
  rw [erase_crWrites, List.drop_left]
  have hpage : ((page % 2 ^ 8) <<< 3).testBit 31 = false := by
    rw [Nat.testBit_shiftLeft]
    have : page % 2 ^ 8 < 2 ^ 28 := lt_of_lt_of_le (Nat.mod_lt _ (by norm_num)) (by norm_num)
    simp [Nat.testBit_lt_two_pow this]
  constructor
  · by_cases hb : bank % 256 = 1 <;> cases s.SR.testBit 16 <;>
      simp [erase_v6, erase_v5, erase_v4, erase_v3, erase_v2, erase_v1, erase_c0, hb]
  · by_cases hb : bank % 256 = 1 <;> cases s.SR.testBit 16 <;>
      simp [erase_v6, erase_v5, erase_v4, erase_v3, erase_v2, erase_v1, erase_c0, hb, hpage]

/-- The three stores of a returning `flash_program_double_word` to the control register:
the first sets the program-mode bit, the second clears it, the third sets `LOCK`. -/
theorem program_crWrites_bits (s : Device) (a d : Nat) :
    ((crWrites (program_after_poll (program_until_poll s a d)).log).drop
        (crWrites s.log).length).map (fun v => v.testBit 0) = [true, false, false] ∧
    ((crWrites (program_after_poll (program_until_poll s a d)).log).drop
        (crWrites s.log).length).map (fun v => v.testBit 31) = [false, false, true] := by
  rw [crWrites_program_after_poll _ (program_until_poll_LOCK s a d),
    crWrites_program_until_poll, List.append_assoc, List.drop_left]
  have hL := program_until_poll_LOCK s a d
  constructor
  · simp [-Nat.testBit_zero]
  · by_cases hb : s.SR.testBit 16 = true <;> simp [hL, hb]

/-- C13, amended. Each sequencer operation runs `flash_clear_status_flags` (six stores
to the status register) once, on one side of the operation only.

`flash_erase_page` runs it before the operation and not after it.  Its stores are, in
this order, the two key stores, six status stores and six stores to the control
register.  The six status stores are those of `flash_clear_status_flags` run on the
state that `unlock_flash` and the busy wait after it have left, so each carries `BSY`
clear even when the call began while an operation was running; the first store to the
control register after them sets the erase-mode bit and the last one sets `LOCK`.

`flash_program_double_word` runs it after the operation and not before it.  The call is
its first part, the poll on `EOP` and its second part.  The first part issues the two
key stores, the store that sets the program-mode bit and the two flash stores, no status
store, and ends with the busy wait, so `BSY` is clear at the poll.  The second part
issues seven status stores, the one that clears `EOP` and the six of
`flash_clear_status_flags` run after it, and then the two stores to the control register
that clear the program-mode bit and set `LOCK`.  With `EOP` clear and its interrupt off
on entry the call returns, and then its stores are these, every status store carrying
`BSY` clear. -/
theorem status_flags_cleared_once (s : Device) (bank page a d : Nat) :
    targets (flash_clear_status_flags s) =
      targets s ++ [Target.sr, Target.sr, Target.sr, Target.sr, Target.sr, Target.sr] ∧
    targets (flash_erase_page s bank page) =
      targets s ++ [Target.keyr, Target.keyr,
        Target.sr, Target.sr, Target.sr, Target.sr, Target.sr, Target.sr,
        Target.cr, Target.cr, Target.cr, Target.cr, Target.cr, Target.cr] ∧
    srWrites (flash_erase_page s bank page).log =
      srWrites (flash_clear_status_flags
        (flash_wait_for_last_operation (unlock_flash s))).log ∧
    (flash_wait_for_last_operation (unlock_flash s)).SR.testBit 16 = false ∧
    ((srWrites (flash_erase_page s bank page).log).drop (srWrites s.log).length).map
        (fun v => v.testBit 16) = [false, false, false, false, false, false] ∧
    ((crWrites (flash_erase_page s bank page).log).drop (crWrites s.log).length).map
        (fun v => v.testBit 1) = [true, true, true, true, false, false] ∧
    ((crWrites (flash_erase_page s bank page).log).drop (crWrites s.log).length).map
        (fun v => v.testBit 31) = [false, false, false, false, false, true] ∧
    flash_program_double_word s a d =
      (flash_wait_eop (program_until_poll s a d)).map program_after_poll ∧
    targets (program_until_poll s a d) =
      targets s ++ [Target.keyr, Target.keyr, Target.cr, Target.flash, Target.flash] ∧
    (program_until_poll s a d).SR.testBit 16 = false ∧
    (∀ t : Device, targets (program_after_poll t) =
      targets t ++ [Target.sr, Target.sr, Target.sr, Target.sr, Target.sr, Target.sr,
        Target.sr, Target.cr, Target.cr]) ∧
    (∀ t : Device, srWrites (program_after_poll t).log =
      srWrites (flash_clear_status_flags
        (hw_writeSR t (t.SR &&& not32 FLASH_SR_EOP))).log) ∧
    (s.SR.testBit 0 = false → s.CR.testBit 24 = false →
      (flash_program_double_word s a d).map targets =
        some (targets s ++ [Target.keyr, Target.keyr, Target.cr, Target.flash,
          Target.flash, Target.sr, Target.sr, Target.sr, Target.sr, Target.sr, Target.sr,
          Target.sr, Target.cr, Target.cr]) ∧
      (flash_program_double_word s a d).map (fun s' =>
          ((srWrites s'.log).drop (srWrites s.log).length).map (fun v => v.testBit 16)) =
        some [false, false, false, false, false, false, false] ∧
      (flash_program_double_word s a d).map (fun s' =>
          ((crWrites s'.log).drop (crWrites s.log).length).map (fun v => v.testBit 0)) =
        some [true, false, false] ∧
      (flash_program_double_word s a d).map (fun s' =>
          ((crWrites s'.log).drop (crWrites s.log).length).map (fun v => v.testBit 31)) =
        some [false, false, true]) := by
  refine ⟨targets_clear s, targets_erase s bank page, srWrites_erase s bank page,
    flash_wait_BSY _, srWrites_erase_BSY s bank page, (erase_crWrites_bits s bank page).1,
    (erase_crWrites_bits s bank page).2, program_split s a d,
    targets_program_until_poll s a d, program_until_poll_BSY s a d,
    targets_program_after_poll, srWrites_program_after_poll, ?_⟩
  intro hE hI
  rw [program_returns s a d hE hI]
  simp only [Option.map_some', Option.some.injEq]
  refine ⟨?_, ?_, (program_crWrites_bits s a d).1, (program_crWrites_bits s a d).2⟩
  · rw [targets_program_after_poll, targets_program_until_poll, List.append_assoc]
    rfl
  · have h := srWrites_program_after_poll_BSY (program_until_poll s a d)
      (program_until_poll_BSY s a d)
    rw [srWrites_program_until_poll] at h
    exact h

/-- Witness of C13: both operations called while an erase is still running and a
programming error is flagged. -/
theorem status_flags_cleared_once_witness :
    busyDevice.SR.testBit 16 = true ∧
    ((srWrites (flash_erase_page busyDevice 2 0).log).drop
        (srWrites busyDevice.log).length).map (fun v => v.testBit 16) =
      [false, false, false, false, false, false] ∧
    (flash_program_double_word busyDevice SETTINGS_ADDRESS 7).map targets =
      some (targets busyDevice ++ [Target.keyr, Target.keyr, Target.cr, Target.flash,
        Target.flash, Target.sr, Target.sr, Target.sr, Target.sr, Target.sr, Target.sr,
        Target.sr, Target.cr, Target.cr]) ∧
    (flash_program_double_word busyDevice SETTINGS_ADDRESS 7).map (fun s' =>
        ((srWrites s'.log).drop (srWrites busyDevice.log).length).map
          (fun v => v.testBit 16)) =
      some [false, false, false, false, false, false, false] :=
  ⟨by decide,
   (status_flags_cleared_once busyDevice 2 0 SETTINGS_ADDRESS 7).2.2.2.2.1,
   ((status_flags_cleared_once busyDevice 2 0 SETTINGS_ADDRESS 7).2.2.2.2.2.2.2.2.2.2.2.2
      (by decide) (by decide)).1,
   ((status_flags_cleared_once busyDevice 2 0 SETTINGS_ADDRESS 7).2.2.2.2.2.2.2.2.2.2.2.2
      (by decide) (by decide)).2.1⟩

end Caddy
